import Mathlib

/-!
# Verification development for the SUMO excerpts of traci-api

Shallow embedding of

* `src/utils/xml/SUMOSAXAttributesImpl_Cached.cpp` (attribute access over a map backend),
* `src/microsim/devices/MSVehicleDevice.h` (vehicle-bound device),
* `src/microsim/output/MSInstantInductLoop.h` (instantaneous induction loop).

Conventions of the embedding:

* `std::string` is `String`, `std::map<K, V>` is an association list `List (K × V)` read
  with `mapFind` (the first binding of a key is the binding of the key) and iterated with
  `mapIterate` (ascending keys, one binding per key);
* `double` is modelled by exact rationals `ℚ`: rounding is not modelled;
* a C++ call whose behaviour is undefined or that trips an `assert` returns `none`.
-/

namespace Sumo

/-! ## `std::map` as an association list -/

/-- `m.find(k)`: the value bound to `k`, `none` standing for `m.end()`. -/
def mapFind {κ ν : Type} [DecidableEq κ] : List (κ × ν) → κ → Option ν
  | [], _ => none
  | (k', v) :: rest, k => if k' = k then some v else mapFind rest k

/-- `m.erase(k)`: every binding of `k` is dropped. -/
def mapErase {κ ν : Type} [DecidableEq κ] (m : List (κ × ν)) (k : κ) : List (κ × ν) :=
  m.filter (fun e => decide (e.1 ≠ k))

/-- `m[k] = v`: the binding of `k` is replaced by `v` (or created). -/
def mapInsert {κ ν : Type} [DecidableEq κ] (m : List (κ × ν)) (k : κ) (v : ν) :
    List (κ × ν) :=
  (k, v) :: mapErase m k

/-- The bindings of a `std::map<std::string, std::string>` in the order of its iteration
after `m[k] = v`: the binding of `k` is put at its place in the ascending order of the
keys and replaces a binding of the same key. The order of `std::string` is the one of
`String` (lexicographic). -/
def orderedPut (k v : String) : List (String × String) → List (String × String)
  | [] => [(k, v)]
  | (k', v') :: rest =>
    if k < k' then (k, v) :: (k', v') :: rest
    else if k = k' then (k, v) :: rest
    else (k', v') :: orderedPut k v rest

/-- The bindings of a `std::map<std::string, std::string>`, given as an association list,
in the order in which the map is iterated from `begin()` to `end()`: ascending in the
key, with one binding per key, the one that `mapFind` reads. -/
def mapIterate (m : List (String × String)) : List (String × String) :=
  m.foldr (fun e acc => orderedPut e.1 e.2 acc) []

/-! ## `SUMOSAXAttributesImpl_Cached` -/

/-- The members of `SUMOSAXAttributesImpl_Cached`: the attribute map, the map of the
predefined tags (numeric id to attribute name) and the object type of the base class. -/
structure SUMOSAXAttributesImpl_Cached where
  myAttrs : List (String × String)
  myPredefinedTagsMML : List (Int × String)
  objectType : String
  deriving DecidableEq, Repr

namespace SUMOSAXAttributesImpl_Cached

/-- `hasAttribute(int id)`: `false` when the id is not a predefined tag, otherwise whether
the name of the tag is a key of the attribute map. -/
def hasAttribute (a : SUMOSAXAttributesImpl_Cached) (id : Int) : Bool :=
  match mapFind a.myPredefinedTagsMML id with
  | none => false
  | some name => (mapFind a.myAttrs name).isSome

/-- `hasAttribute(const std::string& id)`. -/
def hasAttributeName (a : SUMOSAXAttributesImpl_Cached) (id : String) : Bool :=
  (mapFind a.myAttrs id).isSome

/-- `getAttributeValueSecure(int id)`: `none` when the `assert` on the tag lookup fails,
and `none` when `myAttrs.find(i->second)` is `end()`, which the code dereferences. -/
def getAttributeValueSecure (a : SUMOSAXAttributesImpl_Cached) (id : Int) : Option String :=
  match mapFind a.myPredefinedTagsMML id with
  | none => none
  | some name => mapFind a.myAttrs name

/-- `getString(int id)`. -/
def getString (a : SUMOSAXAttributesImpl_Cached) (id : Int) : Option String :=
  a.getAttributeValueSecure id

/-- `getStringSecure(int id, const std::string& str)`: the value read by
`getAttributeValueSecure`, replaced by `str` when its size is zero. -/
def getStringSecure (a : SUMOSAXAttributesImpl_Cached) (id : Int) (str : String) :
    Option String :=
  match a.getAttributeValueSecure id with
  | none => none
  | some result => some (if result.length = 0 then str else result)

/-- `getStringSecure(const std::string& id, const std::string& str)`. -/
def getStringSecureName (a : SUMOSAXAttributesImpl_Cached) (id : String) (str : String) :
    String :=
  match mapFind a.myAttrs id with
  | some v => if v ≠ "" then v else str
  | none => str

end SUMOSAXAttributesImpl_Cached

/-! ## `MSVehicleDevice` -/

/-- The vehicle handle `SUMOVehicle&` as this subsystem reads it: the stable numerical id
(`SUMOVehicle::NumericalID`), the id of its vehicle type, the length of the vehicle and
its current speed. -/
structure SUMOVehicle where
  numericalID : Int
  vtype : String
  length : ℚ
  speed : ℚ
  deriving DecidableEq, Repr

/-- `SUMOVehicle::getNumericalID()`. -/
def SUMOVehicle.getNumericalID (v : SUMOVehicle) : Int := v.numericalID

/-- The members of `MSVehicleDevice`: the id handed to `MSMoveReminder(id)` and
`MSDevice(id)`, and the holder `myHolder`. -/
structure MSVehicleDevice where
  myID : String
  myHolder : SUMOVehicle
  deriving DecidableEq, Repr

namespace MSVehicleDevice

/-- The constructor `MSVehicleDevice(SUMOVehicle& holder, const std::string& id)`. -/
def construct (holder : SUMOVehicle) (id : String) : MSVehicleDevice :=
  { myID := id, myHolder := holder }

/-- `getHolder() const`. -/
def getHolder (d : MSVehicleDevice) : SUMOVehicle := d.myHolder

/-- `getNumericalID() const`: the numerical id of the holder. -/
def getNumericalID (d : MSVehicleDevice) : Int := d.myHolder.getNumericalID

/-- The operations the class offers on a constructed device (the copy constructor and the
assignment operator are private and undefined). -/
inductive Op where
  | getHolder
  | getNumericalID
  deriving DecidableEq, Repr

/-- The device after one operation: both are `const` member functions. -/
def applyOp (d : MSVehicleDevice) : Op → MSVehicleDevice
  | .getHolder => d
  | .getNumericalID => d

/-- The device after a sequence of operations. -/
def applyOps (d : MSVehicleDevice) (ops : List Op) : MSVehicleDevice :=
  ops.foldl applyOp d

end MSVehicleDevice

/-! ## `MSInstantInductLoop` -/

/-- The members of `MSInstantInductLoop` declared in the header: the position of the
detector on the lane, the last exit time and the map of entry times (keyed by the
vehicle, here by its numerical id), together with the set of accepted vehicle types the
constructor receives as `vTypes`. The output device is modelled by the list of records
each call hands to it. -/
structure MSInstantInductLoop where
  myPosition : ℚ
  myLastExitTime : ℚ
  myEntryTimes : List (Int × ℚ)
  myVehicleTypes : List String
  deriving DecidableEq, Repr

/-- The text written to an output device. -/
structure OutputDevice where
  written : List String
  deriving DecidableEq, Repr

/-- Modelled from the spec: the event kinds of a crossing record (section 3 of the
specification); the source of `MSInstantInductLoop::write` is not part of the excerpt. -/
inductive EventKind where
  | pass
  | dismissByLaneChange
  | dismissByRemoval
  deriving DecidableEq, Repr

/-- Modelled from the spec: the crossing record handed to the output sink (section 3:
vehicle identity, entry time, exit time, exit speed, event kind); the source of
`MSInstantInductLoop::write` is not part of the excerpt. -/
structure CrossingRecord where
  vehicle : Int
  entryTime : ℚ
  exitTime : ℚ
  exitSpeed : ℚ
  kind : EventKind
  deriving DecidableEq, Repr

/-- Modelled from the spec: the reasons of `onLeave` (section 6: laneChange, arrived,
teleported, vaporized, normal); `MSMoveReminder::Notification` is not part of the
excerpt. -/
inductive Notification where
  | laneChange
  | arrived
  | teleported
  | vaporized
  | normal
  deriving DecidableEq, Repr

/-- What one call of `notifyMove` yields: the detector afterwards, the records handed to
the output sink during the call, and the returned flag. -/
structure MoveResult where
  det : MSInstantInductLoop
  records : List CrossingRecord
  keep : Bool
  deriving DecidableEq, Repr

/-- What one call of `notifyLeave` yields: the detector afterwards and the records handed
to the output sink during the call. -/
structure LeaveResult where
  det : MSInstantInductLoop
  records : List CrossingRecord
  deriving DecidableEq, Repr

namespace MSInstantInductLoop

/-- `writeXMLOutput(OutputDevice& dev, SUMOTime startTime, SUMOTime stopTime)`: the body
only marks its three parameters as unused. -/
def writeXMLOutput (d : MSInstantInductLoop) (dev : OutputDevice) (_startTime : Int)
    (_stopTime : Int) : MSInstantInductLoop × OutputDevice :=
  (d, dev)

/-- Modelled from the spec: the vehicle-type filter (sections 3 and 6: a set of accepted
type identifiers, the empty set accepts all, matching is exact string membership); the
source of `MSDetectorFileOutput::vehicleApplies` is not part of the excerpt. -/
def vehicleApplies (d : MSInstantInductLoop) (veh : SUMOVehicle) : Bool :=
  d.myVehicleTypes.isEmpty || d.myVehicleTypes.contains veh.vtype

/-- Modelled from the spec: the interpolation scheme of section 4.2 (linear interpolation
between the start `t0` and the end `t1` of the step with the fraction
`(passed - oldPos) / (newPos - oldPos)`, and the step-end time when `newSpeed` is zero);
the source of `MSInstantInductLoop::notifyMove` is not part of the excerpt. For a vehicle
with a speed other than zero and no displacement the fraction is a division by zero,
which is 0 in `ℚ`. -/
def passingTime (t0 t1 oldPos passed newPos newSpeed : ℚ) : ℚ :=
  if newSpeed = 0 then t1
  else t0 + (passed - oldPos) / (newPos - oldPos) * (t1 - t0)

/-- Modelled from the spec: step 2 of `onMove` in section 4.2, the table of entry times
after the check of the leading reference point: a vehicle that is not yet tracked and
for which the monitored position lies within `[oldPos, newPos]` gets its entry time;
the source of `MSInstantInductLoop::notifyMove` is not part of the excerpt. -/
def entryTimesAfterFront (d : MSInstantInductLoop) (veh : SUMOVehicle)
    (t0 t1 oldPos newPos newSpeed : ℚ) : List (Int × ℚ) :=
  if (mapFind d.myEntryTimes veh.numericalID).isNone
      ∧ oldPos ≤ d.myPosition ∧ d.myPosition ≤ newPos then
    mapInsert d.myEntryTimes veh.numericalID
      (passingTime t0 t1 oldPos d.myPosition newPos newSpeed)
  else d.myEntryTimes

/-- Modelled from the spec: `onMove` of the point detector (section 4.2, steps 1 to 4),
with the step `[t0, t1)` that the simulation clock defines passed explicitly; the source
of `MSInstantInductLoop::notifyMove` is not part of the excerpt.
1. an excluded vehicle type returns false at once;
2. the entry time of a crossing front is stored (`entryTimesAfterFront`);
3. when the trailing edge `newPos - length` has passed the position, a tracked vehicle
   yields a pass record with the stored entry time, the interpolated exit time and the
   current speed, sets the last exit time and loses its entry, and the call returns
   false; for a vehicle that is not tracked, a case that section 4.2 does not name,
   nothing is recorded and the call returns false as well, as the header documents
   (`@return True if vehicle hasn't passed the detector completely`);
4. otherwise (still straddling, or not yet reached) the call returns true. -/
def notifyMove (d : MSInstantInductLoop) (veh : SUMOVehicle)
    (t0 t1 oldPos newPos newSpeed : ℚ) : MoveResult :=
  if vehicleApplies d veh = false then
    { det := d, records := [], keep := false }
  else
    let entries := entryTimesAfterFront d veh t0 t1 oldPos newPos newSpeed
    if d.myPosition < newPos - veh.length then
      match mapFind entries veh.numericalID with
      | some entryTime =>
        let leaveTime :=
          passingTime t0 t1 (oldPos - veh.length) d.myPosition (newPos - veh.length) newSpeed
        { det := { d with myLastExitTime := leaveTime
                          myEntryTimes := mapErase entries veh.numericalID }
          records := [{ vehicle := veh.numericalID, entryTime := entryTime,
                        exitTime := leaveTime, exitSpeed := newSpeed, kind := .pass }]
          keep := false }
      | none =>
        { det := { d with myEntryTimes := entries }, records := [], keep := false }
    else
      { det := { d with myEntryTimes := entries }, records := [], keep := true }

/-- Modelled from the spec: the kind of the dismiss record for a reason of `onLeave`
(section 4.2: a lane change departure gives dismiss-by-lane-change, every other way of
leaving with an open crossing gives dismiss-by-removal); the source of
`MSInstantInductLoop::notifyLeave` is not part of the excerpt. -/
def dismissKind : Notification → EventKind
  | .laneChange => .dismissByLaneChange
  | _ => .dismissByRemoval

/-- Modelled from the spec: `onLeave` of the point detector (section 4.2), at simulation
time `t`: a vehicle with an open crossing yields one dismiss record whose entry and exit
time are both `t`, and loses its entry; for any other vehicle the call changes nothing.
The acknowledgement flag, which the specification leaves open, is not modelled; the
source of `MSInstantInductLoop::notifyLeave` is not part of the excerpt. -/
def notifyLeave (d : MSInstantInductLoop) (veh : SUMOVehicle) (t : ℚ) (_lastPos : ℚ)
    (reason : Notification) : LeaveResult :=
  match mapFind d.myEntryTimes veh.numericalID with
  | some _ =>
    { det := { d with myEntryTimes := mapErase d.myEntryTimes veh.numericalID }
      records := [{ vehicle := veh.numericalID, entryTime := t, exitTime := t,
                    exitSpeed := veh.speed, kind := dismissKind reason }] }
  | none => { det := d, records := [] }

end MSInstantInductLoop

/-- One notification of the motion source to a point detector. -/
inductive Event where
  | move (veh : SUMOVehicle) (t0 t1 oldPos newPos newSpeed : ℚ)
  | leave (veh : SUMOVehicle) (t lastPos : ℚ) (reason : Notification)
  deriving DecidableEq, Repr

/-- The vehicle an event is about. -/
def Event.vehicle : Event → SUMOVehicle
  | .move veh _ _ _ _ _ => veh
  | .leave veh _ _ _ => veh

/-- What a sequence of notifications yields: the detector afterwards, all records handed
to the output sink in order, and the flag each `notifyMove` call returned, in order, with
the numerical id of the vehicle of the call. -/
structure RunResult where
  det : MSInstantInductLoop
  records : List CrossingRecord
  flags : List (Int × Bool)
  deriving DecidableEq, Repr

namespace MSInstantInductLoop

/-- The notifications of a list delivered to the detector one after the other. -/
def run (d : MSInstantInductLoop) : List Event → RunResult
  | [] => { det := d, records := [], flags := [] }
  | .move veh t0 t1 oldPos newPos newSpeed :: rest =>
    let r := notifyMove d veh t0 t1 oldPos newPos newSpeed
    let s := run r.det rest
    { det := s.det, records := r.records ++ s.records
      flags := (veh.numericalID, r.keep) :: s.flags }
  | .leave veh t lastPos reason :: rest =>
    let r := notifyLeave d veh t lastPos reason
    let s := run r.det rest
    { det := s.det, records := r.records ++ s.records, flags := s.flags }

/-- The precondition of the motion source on one notification, against the detector `d`
and the time `clock k` at which the latest step of vehicle `k` ended: a step of a vehicle
starts no earlier than its previous step ended and ends no earlier than it starts, the
vehicle does not move backwards, its length is not negative, and the trailing edge of a
tracked vehicle has not yet passed the monitored position when the step starts. -/
def admissible (d : MSInstantInductLoop) (clock : Int → ℚ) : Event → Prop
  | .move veh t0 t1 oldPos newPos _ =>
    clock veh.numericalID ≤ t0 ∧ t0 ≤ t1 ∧ oldPos ≤ newPos ∧ 0 ≤ veh.length
      ∧ ((mapFind d.myEntryTimes veh.numericalID).isSome →
          oldPos - veh.length ≤ d.myPosition)
  | .leave _ _ _ _ => True

/-- The clocks of the vehicles after a notification: a move sets the clock of its vehicle
to the end of the step. -/
def tick (clock : Int → ℚ) : Event → Int → ℚ
  | .move veh _ t1 _ _ _ => fun k => if k = veh.numericalID then t1 else clock k
  | .leave _ _ _ _ => clock

/-- The detector after one notification. -/
def after (d : MSInstantInductLoop) : Event → MSInstantInductLoop
  | .move veh t0 t1 oldPos newPos newSpeed =>
    (notifyMove d veh t0 t1 oldPos newPos newSpeed).det
  | .leave veh t lastPos reason => (notifyLeave d veh t lastPos reason).det

/-- Every notification of the list meets the precondition of the motion source at the
moment it is delivered. -/
def admissibleRun (d : MSInstantInductLoop) (clock : Int → ℚ) : List Event → Prop
  | [] => True
  | ev :: rest => admissible d clock ev ∧ admissibleRun (after d ev) (tick clock ev) rest

end MSInstantInductLoop

namespace MSInstantInductLoop

/-- The records one notification hands to the output sink. -/
def emitted (d : MSInstantInductLoop) : Event → List CrossingRecord
  | .move veh t0 t1 oldPos newPos newSpeed =>
    (notifyMove d veh t0 t1 oldPos newPos newSpeed).records
  | .leave veh t lastPos reason => (notifyLeave d veh t lastPos reason).records

end MSInstantInductLoop

/-! ## `SUMOSAXAttributesImpl_Cached`: enumerations, geometry, serialisation -/

/-- The part of `StringBijection<T>` (`SUMOXMLDefinitions::EdgeFunctions`, `NodeTypes`,
`RightOfWayValues`) that the getters call: `hasString` and `get`. The tables themselves
are not part of the excerpt and are taken as parameters. -/
structure StringBijection (τ : Type) where
  hasString : String → Bool
  get : String → τ

/-- How a call ends when it does not return: undefined behaviour (an `end()` iterator
read through), a `FormatException` with its message, or the exception of
`StringUtils::toDouble` on a string that is no number. -/
inductive Failure where
  | undefinedBehaviour
  | formatException (what : String)
  | conversionError (input : String)
  deriving DecidableEq, Repr

/-- The string helpers the geometry getters call, which are not part of the excerpt and
are taken as parameters: the tokens of `StringTokenizer(tosplit)` (split at whitespace),
the tokens of `StringTokenizer(tosplit, delim)`, and `StringUtils::toDouble`, `none` when
it throws. -/
structure StringTools where
  tokenize : String → List String
  tokenizeAt : String → String → List String
  toDouble : String → Option ℚ

/-- The two constructor calls of `Position` that `getShape` makes: `Position(x, y)` and
`Position(x, y, z)`. -/
inductive Position where
  | xy (x y : ℚ)
  | xyz (x y z : ℚ)
  deriving DecidableEq, Repr

/-- `PositionVector`, as the sequence of the positions pushed back. -/
abbrev PositionVector := List Position

/-- The constructor call `Boundary(xmin, ymin, xmax, ymax)` of `getBoundary`. -/
inductive Boundary where
  | ofCorners (x1 y1 x2 y2 : ℚ)
  deriving DecidableEq, Repr

namespace SUMOSAXAttributesImpl_Cached

/-- `getEdgeFunc(bool& ok)`: the result and the value of `ok` afterwards; `none` when
`getString` does not return. `SUMO_ATTR_FUNCTION`, the table `EdgeFunctions` and
`EDGEFUNC_NORMAL` are parameters. -/
def getEdgeFunc {SumoXMLEdgeFunc : Type} (a : SUMOSAXAttributesImpl_Cached)
    (SUMO_ATTR_FUNCTION : Int) (EdgeFunctions : StringBijection SumoXMLEdgeFunc)
    (EDGEFUNC_NORMAL : SumoXMLEdgeFunc) (ok : Bool) : Option (SumoXMLEdgeFunc × Bool) :=
  if a.hasAttribute SUMO_ATTR_FUNCTION = true then
    match a.getString SUMO_ATTR_FUNCTION with
    | none => none
    | some funcString =>
      if EdgeFunctions.hasString funcString = true then
        some (EdgeFunctions.get funcString, ok)
      else some (EDGEFUNC_NORMAL, false)
  else some (EDGEFUNC_NORMAL, ok)

/-- `getNodeType(bool& ok)`: the result and the value of `ok` afterwards; `none` when
`getString` does not return. `SUMO_ATTR_TYPE`, the table `NodeTypes` and
`NODETYPE_UNKNOWN` are parameters. -/
def getNodeType {SumoXMLNodeType : Type} (a : SUMOSAXAttributesImpl_Cached)
    (SUMO_ATTR_TYPE : Int) (NodeTypes : StringBijection SumoXMLNodeType)
    (NODETYPE_UNKNOWN : SumoXMLNodeType) (ok : Bool) : Option (SumoXMLNodeType × Bool) :=
  if a.hasAttribute SUMO_ATTR_TYPE = true then
    match a.getString SUMO_ATTR_TYPE with
    | none => none
    | some typeString =>
      if NodeTypes.hasString typeString = true then
        some (NodeTypes.get typeString, ok)
      else some (NODETYPE_UNKNOWN, false)
  else some (NODETYPE_UNKNOWN, ok)

/-- `getRightOfWay(bool& ok)`: the result and the value of `ok` afterwards; `none` when
`getString` does not return. `SUMO_ATTR_RIGHT_OF_WAY`, the table `RightOfWayValues` and
`RIGHT_OF_WAY_DEFAULT` are parameters. -/
def getRightOfWay {RightOfWay : Type} (a : SUMOSAXAttributesImpl_Cached)
    (SUMO_ATTR_RIGHT_OF_WAY : Int) (RightOfWayValues : StringBijection RightOfWay)
    (RIGHT_OF_WAY_DEFAULT : RightOfWay) (ok : Bool) : Option (RightOfWay × Bool) :=
  if a.hasAttribute SUMO_ATTR_RIGHT_OF_WAY = true then
    match a.getString SUMO_ATTR_RIGHT_OF_WAY with
    | none => none
    | some rowString =>
      if RightOfWayValues.hasString rowString = true then
        some (RightOfWayValues.get rowString, ok)
      else some (RIGHT_OF_WAY_DEFAULT, false)
  else some (RIGHT_OF_WAY_DEFAULT, ok)

/-- The loop of `getShape` over the tokens that `st` still holds, `shape` being the
positions pushed back so far: the token is split at ",", a number of components other
than 2 and 3 throws `FormatException("shape format")`, otherwise the first two
components are converted, and the third one when there are three. -/
def getShapeLoop (u : StringTools) : List String → PositionVector →
    Except Failure PositionVector
  | [], shape => .ok shape
  | tok :: st, shape =>
    let pos := u.tokenizeAt tok ","
    if pos.length ≠ 2 ∧ pos.length ≠ 3 then
      .error (.formatException "shape format")
    else
      match pos with
      | sx :: sy :: more =>
        match u.toDouble sx with
        | none => .error (.conversionError sx)
        | some x =>
          match u.toDouble sy with
          | none => .error (.conversionError sy)
          | some y =>
            if pos.length = 2 then getShapeLoop u st (shape ++ [Position.xy x y])
            else
              match more with
              | sz :: _ =>
                match u.toDouble sz with
                | none => .error (.conversionError sz)
                | some z => getShapeLoop u st (shape ++ [Position.xyz x y z])
              | [] => .error .undefinedBehaviour
      | _ => .error .undefinedBehaviour

/-- `getShape(int attr)`. -/
def getShape (u : StringTools) (a : SUMOSAXAttributesImpl_Cached) (attr : Int) :
    Except Failure PositionVector :=
  match a.getString attr with
  | none => .error .undefinedBehaviour
  | some value => getShapeLoop u (u.tokenize value) []

/-- `getBoundary(int attr)`: the value is split at ","; a number of fields other than 4
throws `FormatException("boundary format")`, otherwise the four fields are converted in
order and handed to the constructor of `Boundary`. -/
def getBoundary (u : StringTools) (a : SUMOSAXAttributesImpl_Cached) (attr : Int) :
    Except Failure Boundary :=
  match a.getString attr with
  | none => .error .undefinedBehaviour
  | some value =>
    let st := u.tokenizeAt value ","
    if st.length ≠ 4 then .error (.formatException "boundary format")
    else
      match st with
      | [s1, s2, s3, s4] =>
        match u.toDouble s1 with
        | none => .error (.conversionError s1)
        | some xmin =>
          match u.toDouble s2 with
          | none => .error (.conversionError s2)
          | some ymin =>
            match u.toDouble s3 with
            | none => .error (.conversionError s3)
            | some xmax =>
              match u.toDouble s4 with
              | none => .error (.conversionError s4)
              | some ymax => .ok (Boundary.ofCorners xmin ymin xmax ymax)
      | _ => .error .undefinedBehaviour

/-- The constructor `SUMOSAXAttributesImpl_Cached(attrs, predefinedTagsMML, objectType)`. -/
def construct (attrs : List (String × String)) (predefinedTagsMML : List (Int × String))
    (objectType : String) : SUMOSAXAttributesImpl_Cached :=
  { myAttrs := attrs, myPredefinedTagsMML := predefinedTagsMML, objectType := objectType }

/-- `getObjectType()` of the base class `SUMOSAXAttributes`. -/
def getObjectType (a : SUMOSAXAttributesImpl_Cached) : String := a.objectType

/-- `getName(int attr)`: "?" for an id that is no predefined tag. -/
def getName (a : SUMOSAXAttributesImpl_Cached) (attr : Int) : String :=
  match mapFind a.myPredefinedTagsMML attr with
  | none => "?"
  | some name => name

/-- The text `serialize` writes for one entry of the attribute map. -/
def serializeEntry (it : String × String) : String :=
  " " ++ it.1 ++ "=\"" ++ it.2 ++ "\""

/-- `serialize(std::ostream& os)`: the stream after the loop over the attribute map, from
`begin()` to `end()`, that is over `mapIterate`. -/
def serialize (a : SUMOSAXAttributesImpl_Cached) (os : String) : String :=
  (mapIterate a.myAttrs).foldl (fun out it => out ++ " " ++ it.1 ++ "=\"" ++ it.2 ++ "\"") os

/-- `clone() const`: a new object built from the three members of this one. -/
def clone (a : SUMOSAXAttributesImpl_Cached) : SUMOSAXAttributesImpl_Cached :=
  construct a.myAttrs a.myPredefinedTagsMML a.getObjectType

end SUMOSAXAttributesImpl_Cached

/-- The position a token of a shape stands for: `Position(x, y)` for a token of two
comma-separated components and `Position(x, y, z)` for a token of three, `x`, `y` and `z`
being the numbers of the components in order. -/
def tokenPosition (u : StringTools) (tok : String) (p : Position) : Prop :=
  (∃ sx sy x y, u.tokenizeAt tok "," = [sx, sy] ∧ u.toDouble sx = some x
      ∧ u.toDouble sy = some y ∧ p = Position.xy x y)
    ∨ (∃ sx sy sz x y z, u.tokenizeAt tok "," = [sx, sy, sz] ∧ u.toDouble sx = some x
      ∧ u.toDouble sy = some y ∧ u.toDouble sz = some z ∧ p = Position.xyz x y z)

namespace MSInstantInductLoop

end MSInstantInductLoop

/-! ## Concrete inputs -/

/-- A detector at 100 m that accepts the type "car" only and tracks no vehicle. -/
def detectorAt100 : MSInstantInductLoop :=
  { myPosition := 100, myLastExitTime := -1, myEntryTimes := [], myVehicleTypes := ["car"] }

/-- A detector at 103 m that accepts the type "car" only and tracks no vehicle. -/
def detectorAt103 : MSInstantInductLoop :=
  { myPosition := 103, myLastExitTime := -1, myEntryTimes := [], myVehicleTypes := ["car"] }

/-- A car of length 5 m and speed 5 m/s, numerical id 7. -/
def car7 : SUMOVehicle := { numericalID := 7, vtype := "car", length := 5, speed := 5 }

/-- A truck of length 12 m and speed 5 m/s, numerical id 8. -/
def truck8 : SUMOVehicle := { numericalID := 8, vtype := "truck", length := 12, speed := 5 }

/-- The truck drives over the detector at 100 m in three steps and then changes lane,
while the car crosses the detector in the second step. -/
def truckAndCarEvents : List Event :=
  [.move truck8 9 10 90 95 5, .move truck8 10 11 95 101 6, .move car7 10 11 98 103 5,
   .move truck8 11 12 101 120 19, .leave truck8 12 120 .laneChange]

/-- The car crosses the detector at 100 m with its front in the step from 10 s to 11 s
and with its trailing edge in the step from 11 s to 12 s; a second car, of numerical id
9, crosses with its front in the step from 11 s to 12 s and then changes lane. -/
def carPassEvents : List Event :=
  [.move car7 10 11 98 103 5, .move { car7 with numericalID := 9 } 11 12 96 101 5,
   .move car7 11 12 103 108 5, .leave { car7 with numericalID := 9 } 12 101 .laneChange]

/-- A tokenizer for the concrete inputs: the pieces of a character list between the
occurrences of `sep`, `cur` being the piece read so far. -/
def samplePieces (sep : Char) : List Char → List Char → List String
  | [], cur => [String.mk cur]
  | c :: cs, cur =>
    if c = sep then String.mk cur :: samplePieces sep cs [] else samplePieces sep cs (cur ++ [c])

/-- A converter for the concrete inputs: the value of a list of decimal digits. -/
def sampleDigits : List Char → Nat → Option Nat
  | [], acc => some acc
  | c :: cs, acc =>
    if c.isDigit = true then sampleDigits cs (10 * acc + (c.toNat - 48)) else none

/-- String helpers for the concrete inputs: tokens are the non-empty pieces between
blanks, fields the pieces between commas, and numbers are non-empty digit strings. -/
def sampleTools : StringTools where
  tokenize s := (samplePieces ' ' s.data []).filter (fun t => decide (t ≠ ""))
  tokenizeAt s _ := samplePieces ',' s.data []
  toDouble s := if s.data = [] then none else (sampleDigits s.data 0).map (fun n => (n : ℚ))

/-- An edge element with the attributes function, shape and boundary; the predefined tags
are 1 for id, 2 for function, 3 for shape and 4 for boundary. -/
def sampleEdge : SUMOSAXAttributesImpl_Cached :=
  { myAttrs := [("boundary", "0,0,10,20"), ("function", "crossing"), ("id", "e1"),
                ("shape", "0,0 10,20,3")]
    myPredefinedTagsMML := [(1, "id"), (2, "function"), (3, "shape"), (4, "boundary")]
    objectType := "edge" }

/-- A table of edge functions (as numbers) that knows "normal" as 0 and "crossing"
as 1. -/
def sampleEdgeFunctions : StringBijection Nat where
  hasString s := decide (s = "normal") || decide (s = "crossing")
  get s := if s = "crossing" then 1 else 0

end Sumo

/-! # Theorems -/

namespace Sumo

/-! ## Lemmas on the association-list maps -/

theorem mapErase_cons {κ ν : Type} [DecidableEq κ] (k' : κ) (v : ν) (rest : List (κ × ν))
    (k : κ) :
    mapErase ((k', v) :: rest) k
      = if k' = k then mapErase rest k else (k', v) :: mapErase rest k := by
  by_cases hk : k' = k <;> simp [mapErase, List.filter_cons, hk]

theorem mapFind_mapErase_self {κ ν : Type} [DecidableEq κ] (m : List (κ × ν)) (k : κ) :
    mapFind (mapErase m k) k = none := by
  induction m with
  | nil => rfl
  | cons e rest ih =>
    obtain ⟨k', v⟩ := e
    rw [mapErase_cons]
    by_cases hk : k' = k
    · rw [if_pos hk]; exact ih
    · rw [if_neg hk, mapFind, if_neg hk]; exact ih

theorem mapFind_mapErase_of_ne {κ ν : Type} [DecidableEq κ] (m : List (κ × ν)) (k j : κ)
    (hj : j ≠ k) : mapFind (mapErase m k) j = mapFind m j := by
  induction m with
  | nil => rfl
  | cons e rest ih =>
    obtain ⟨k', v⟩ := e
    rw [mapErase_cons]
    by_cases hk : k' = k
    · have hkj : ¬ k' = j := fun h => hj (h ▸ hk)
      rw [if_pos hk, ih, mapFind, if_neg hkj]
    · rw [if_neg hk]
      by_cases hkj : k' = j
      · rw [mapFind, if_pos hkj, mapFind, if_pos hkj]
      · rw [mapFind, if_neg hkj, mapFind, if_neg hkj, ih]

theorem mapErase_of_not_found {κ ν : Type} [DecidableEq κ] (m : List (κ × ν)) (k : κ)
    (h : mapFind m k = none) : mapErase m k = m := by
  induction m with
  | nil => rfl
  | cons e rest ih =>
    obtain ⟨k', v⟩ := e
    rw [mapErase_cons]
    by_cases hk : k' = k
    · rw [mapFind, if_pos hk] at h
      exact absurd h (by simp)
    · rw [mapFind, if_neg hk] at h
      rw [if_neg hk, ih h]

theorem mapFind_mapInsert_self {κ ν : Type} [DecidableEq κ] (m : List (κ × ν)) (k : κ)
    (v : ν) : mapFind (mapInsert m k v) k = some v := by
  simp [mapInsert, mapFind]

theorem mapFind_mapInsert_of_ne {κ ν : Type} [DecidableEq κ] (m : List (κ × ν)) (k j : κ)
    (v : ν) (hj : j ≠ k) : mapFind (mapInsert m k v) j = mapFind m j := by
  have hkj : ¬ k = j := fun h => hj h.symm
  simp [mapInsert, mapFind, hkj, mapFind_mapErase_of_ne m k j hj]

/-! ## Iteration of the attribute map -/

theorem mem_orderedPut (k v : String) (l : List (String × String)) :
    ∀ e ∈ orderedPut k v l, e = (k, v) ∨ e ∈ l := by
  induction l with
  | nil =>
    intro e he
    exact Or.inl (List.mem_singleton.mp he)
  | cons head rest ih =>
    obtain ⟨k', v'⟩ := head
    intro e he
    unfold orderedPut at he
    split at he
    · rcases List.mem_cons.mp he with h | h
      · exact Or.inl h
      · exact Or.inr h
    · split at he
      · rcases List.mem_cons.mp he with h | h
        · exact Or.inl h
        · exact Or.inr (List.mem_cons_of_mem _ h)
      · rcases List.mem_cons.mp he with h | h
        · exact Or.inr (h ▸ List.mem_cons_self _ _)
        · rcases ih e h with h' | h'
          · exact Or.inl h'
          · exact Or.inr (List.mem_cons_of_mem _ h')

theorem orderedPut_sorted (k v : String) (l : List (String × String))
    (h : List.Pairwise (fun x y : String × String => x.1 < y.1) l) :
    List.Pairwise (fun x y : String × String => x.1 < y.1) (orderedPut k v l) := by
  induction l with
  | nil => exact List.pairwise_singleton _ _
  | cons head rest ih =>
    obtain ⟨k', v'⟩ := head
    obtain ⟨hhead, hrest⟩ := List.pairwise_cons.mp h
    unfold orderedPut
    split
    · rename_i hlt
      refine List.pairwise_cons.mpr ⟨?_, h⟩
      intro e he
      rcases List.mem_cons.mp he with h' | h'
      · rw [h']; exact hlt
      · exact lt_trans hlt (hhead e h')
    · split
      · rename_i heq
        refine List.pairwise_cons.mpr ⟨?_, hrest⟩
        intro e he
        show k < e.1
        rw [heq]
        exact hhead e he
      · rename_i hnlt hne
        have hgt : k' < k := by
          rcases lt_trichotomy k k' with h' | h' | h'
          · exact absurd h' hnlt
          · exact absurd h' hne
          · exact h'
        refine List.pairwise_cons.mpr ⟨?_, ih hrest⟩
        intro e he
        rcases mem_orderedPut k v rest e he with h' | h'
        · rw [h']; exact hgt
        · exact hhead e h'

theorem mapIterate_sorted (m : List (String × String)) :
    List.Pairwise (fun x y : String × String => x.1 < y.1) (mapIterate m) := by
  induction m with
  | nil => exact List.Pairwise.nil
  | cons e rest ih => exact orderedPut_sorted e.1 e.2 _ ih

theorem mapFind_orderedPut (k v : String) (l : List (String × String)) (j : String) :
    mapFind (orderedPut k v l) j = if k = j then some v else mapFind l j := by
  induction l with
  | nil => simp [orderedPut, mapFind]
  | cons head rest ih =>
    obtain ⟨k', v'⟩ := head
    unfold orderedPut
    split
    · simp [mapFind]
    · split
      · rename_i heq
        by_cases hj : k = j
        · simp [mapFind, hj]
        · have hj' : ¬ k' = j := fun h' => hj (heq.trans h')
          simp [mapFind, hj, hj']
      · rename_i hne
        by_cases hj' : k' = j
        · have hj : ¬ k = j := fun h' => hne (h'.trans hj'.symm)
          simp [mapFind, hj, hj']
        · simp [mapFind, hj', ih]

theorem mapFind_mapIterate (m : List (String × String)) (j : String) :
    mapFind (mapIterate m) j = mapFind m j := by
  induction m with
  | nil => rfl
  | cons e rest ih =>
    obtain ⟨k, v⟩ := e
    show mapFind (orderedPut k v (mapIterate rest)) j = mapFind ((k, v) :: rest) j
    rw [mapFind_orderedPut, ih]
    rfl

theorem mapIterate_of_sorted (m : List (String × String))
    (h : List.Pairwise (fun x y : String × String => x.1 < y.1) m) : mapIterate m = m := by
  induction m with
  | nil => rfl
  | cons e rest ih =>
    obtain ⟨k, v⟩ := e
    obtain ⟨hhead, hrest⟩ := List.pairwise_cons.mp h
    show orderedPut k v (mapIterate rest) = (k, v) :: rest
    rw [ih hrest]
    cases rest with
    | nil => rfl
    | cons e' rest' =>
      obtain ⟨k', v'⟩ := e'
      have hlt : k < k' := hhead (k', v') (List.mem_cons_self _ _)
      simp [orderedPut, hlt]

/-! ## `MSVehicleDevice` -/

theorem MSVehicleDevice.applyOps_eq (d : MSVehicleDevice) (ops : List MSVehicleDevice.Op) :
    d.applyOps ops = d := by
  induction ops with
  | nil => rfl
  | cons op rest ih =>
    cases op <;> simpa [MSVehicleDevice.applyOps, MSVehicleDevice.applyOp] using ih

/-- C3: a device constructed with holder `h` and id `s` returns `h` from `getHolder`, and
still returns `h` after any sequence of the operations of the class. -/
theorem MSVehicleDevice.getHolder_immutable (h : SUMOVehicle) (s : String)
    (ops : List MSVehicleDevice.Op) :
    (MSVehicleDevice.construct h s).getHolder = h
      ∧ ((MSVehicleDevice.construct h s).applyOps ops).getHolder = h := by
  refine ⟨rfl, ?_⟩
  rw [MSVehicleDevice.applyOps_eq]
  rfl

/-- C8: the numerical id of a device is the numerical id of its holder, whatever the id
string of the device: two devices on one holder agree, and devices on holders with
different numerical ids differ. -/
theorem MSVehicleDevice.getNumericalID_of_holder (h h2 : SUMOVehicle) (s s2 : String) :
    (MSVehicleDevice.construct h s).getNumericalID = h.getNumericalID
      ∧ (MSVehicleDevice.construct h s).getNumericalID
          = (MSVehicleDevice.construct h s2).getNumericalID
      ∧ (h.getNumericalID ≠ h2.getNumericalID →
          (MSVehicleDevice.construct h s).getNumericalID
            ≠ (MSVehicleDevice.construct h2 s2).getNumericalID) :=
  ⟨rfl, rfl, fun hne => hne⟩

/-! ## `SUMOSAXAttributesImpl_Cached` -/

/-- C6: when `hasAttribute(id)` holds, the id is a predefined tag, the name of the tag is
a key of the attribute map, and `getAttributeValueSecure(id)` and `getString(id)` return
the value stored under that name; `hasAttribute(id)` is false for an id that is no
predefined tag and for an id whose name is no key of the attribute map. -/
theorem SUMOSAXAttributesImpl_Cached.hasAttribute_sufficient
    (a : SUMOSAXAttributesImpl_Cached) (id : Int) :
    (a.hasAttribute id = true →
        ∃ name value, mapFind a.myPredefinedTagsMML id = some name
          ∧ mapFind a.myAttrs name = some value
          ∧ a.getAttributeValueSecure id = some value
          ∧ a.getString id = some value)
      ∧ (mapFind a.myPredefinedTagsMML id = none → a.hasAttribute id = false)
      ∧ (∀ name, mapFind a.myPredefinedTagsMML id = some name →
          mapFind a.myAttrs name = none → a.hasAttribute id = false) := by
  refine ⟨?_, ?_, ?_⟩
  · intro h
    unfold hasAttribute at h
    cases htag : mapFind a.myPredefinedTagsMML id with
    | none => simp [htag] at h
    | some name =>
      cases hval : mapFind a.myAttrs name with
      | none => simp [htag, hval] at h
      | some value =>
        exact ⟨name, value, rfl, hval, by simp [getAttributeValueSecure, htag, hval],
          by simp [getString, getAttributeValueSecure, htag, hval]⟩
  · intro htag
    simp [hasAttribute, htag]
  · intro name htag hval
    simp [hasAttribute, htag, hval]

/-- C4 (failing input): with an empty attribute map and the tag 1 registered under the
name "id", the overload of `getStringSecure` taking the numeric id does not return
(it reads through `myAttrs.end()`), while the overload taking the name returns the
default string. -/
theorem SUMOSAXAttributesImpl_Cached.getStringSecure_absent_diverges :
    mapFind (SUMOSAXAttributesImpl_Cached.mk [] [(1, "id")] "edge").myPredefinedTagsMML 1
        = some "id"
      ∧ (SUMOSAXAttributesImpl_Cached.mk [] [(1, "id")] "edge").getStringSecure 1 "x" = none
      ∧ (SUMOSAXAttributesImpl_Cached.mk [] [(1, "id")] "edge").getStringSecureName "id" "x"
          = "x" := by
  decide

/-- The two overloads of `getStringSecure` agree whenever the attribute is present. -/
theorem SUMOSAXAttributesImpl_Cached.getStringSecure_agree_of_present
    (a : SUMOSAXAttributesImpl_Cached) (id : Int) (name str : String)
    (htag : mapFind a.myPredefinedTagsMML id = some name)
    (hhas : a.hasAttribute id = true) :
    a.getStringSecure id str = some (a.getStringSecureName name str) := by
  unfold hasAttribute at hhas
  rw [htag] at hhas
  cases hval : mapFind a.myAttrs name with
  | none => simp [hval] at hhas
  | some value =>
    have hlen : value.length = 0 ↔ value = "" := by
      constructor
      · intro h0
        have : value.data = [] := List.length_eq_zero.mp h0
        exact String.ext this
      · intro h0
        subst h0
        rfl
    by_cases hv : value = ""
    · simp [getStringSecure, getAttributeValueSecure, getStringSecureName, htag, hval, hv]
    · have hl : ¬ value.length = 0 := fun h0 => hv (hlen.mp h0)
      simp [getStringSecure, getAttributeValueSecure, getStringSecureName, htag, hval, hv, hl]

namespace SUMOSAXAttributesImpl_Cached

theorem getString_of_hasAttribute (a : SUMOSAXAttributesImpl_Cached) (id : Int)
    (h : a.hasAttribute id = true) : ∃ value, a.getString id = some value := by
  unfold hasAttribute at h
  cases htag : mapFind a.myPredefinedTagsMML id with
  | none => simp [htag] at h
  | some name =>
    cases hval : mapFind a.myAttrs name with
    | none => simp [htag, hval] at h
    | some value =>
      exact ⟨value, by simp [getString, getAttributeValueSecure, htag, hval]⟩

theorem hasAttribute_iff (a : SUMOSAXAttributesImpl_Cached) (id : Int) :
    a.hasAttribute id = true
      ↔ ∃ name value, mapFind a.myPredefinedTagsMML id = some name
          ∧ mapFind a.myAttrs name = some value := by
  unfold hasAttribute
  cases htag : mapFind a.myPredefinedTagsMML id with
  | none => simp
  | some name =>
    cases hval : mapFind a.myAttrs name with
    | none => simp [hval]
    | some value => simp [hval]

theorem getString_of_present (a : SUMOSAXAttributesImpl_Cached) (id : Int)
    (name value : String) (htag : mapFind a.myPredefinedTagsMML id = some name)
    (hval : mapFind a.myAttrs name = some value) : a.getString id = some value := by
  simp [getString, getAttributeValueSecure, htag, hval]

/-- C13: `getEdgeFunc` returns the edge function that the table gives for the value
stored in the attribute map under the name of the function attribute, and leaves `ok` as
it was, when that value is known to the table; it returns `EDGEFUNC_NORMAL` and sets
`ok` to false when the attribute is in the map with a value the table does not know; it
returns `EDGEFUNC_NORMAL` and leaves `ok` as it was when the attribute is absent (its id
is no predefined tag, or its name is no key of the attribute map); it always returns,
and `ok` is true afterwards only if it was true before. `getNodeType` (default
`NODETYPE_UNKNOWN`) and `getRightOfWay` (default `RIGHT_OF_WAY_DEFAULT`) do the same
for their attributes. -/
theorem enum_getters_report_through_ok {SumoXMLEdgeFunc SumoXMLNodeType RightOfWay : Type}
    (a : SUMOSAXAttributesImpl_Cached)
    (SUMO_ATTR_FUNCTION SUMO_ATTR_TYPE SUMO_ATTR_RIGHT_OF_WAY : Int)
    (EdgeFunctions : StringBijection SumoXMLEdgeFunc)
    (NodeTypes : StringBijection SumoXMLNodeType)
    (RightOfWayValues : StringBijection RightOfWay)
    (EDGEFUNC_NORMAL : SumoXMLEdgeFunc) (NODETYPE_UNKNOWN : SumoXMLNodeType)
    (RIGHT_OF_WAY_DEFAULT : RightOfWay) (ok : Bool) :
    ((∀ name s, mapFind a.myPredefinedTagsMML SUMO_ATTR_FUNCTION = some name →
          mapFind a.myAttrs name = some s → EdgeFunctions.hasString s = true →
          a.getEdgeFunc SUMO_ATTR_FUNCTION EdgeFunctions EDGEFUNC_NORMAL ok
            = some (EdgeFunctions.get s, ok))
        ∧ (∀ name s, mapFind a.myPredefinedTagsMML SUMO_ATTR_FUNCTION = some name →
          mapFind a.myAttrs name = some s → EdgeFunctions.hasString s = false →
          a.getEdgeFunc SUMO_ATTR_FUNCTION EdgeFunctions EDGEFUNC_NORMAL ok
            = some (EDGEFUNC_NORMAL, false))
        ∧ (mapFind a.myPredefinedTagsMML SUMO_ATTR_FUNCTION = none →
          a.getEdgeFunc SUMO_ATTR_FUNCTION EdgeFunctions EDGEFUNC_NORMAL ok
            = some (EDGEFUNC_NORMAL, ok))
        ∧ (∀ name, mapFind a.myPredefinedTagsMML SUMO_ATTR_FUNCTION = some name →
          mapFind a.myAttrs name = none →
          a.getEdgeFunc SUMO_ATTR_FUNCTION EdgeFunctions EDGEFUNC_NORMAL ok
            = some (EDGEFUNC_NORMAL, ok))
        ∧ (∃ r, a.getEdgeFunc SUMO_ATTR_FUNCTION EdgeFunctions EDGEFUNC_NORMAL ok = some r
            ∧ (r.2 = true → ok = true)))
      ∧ ((∀ name s, mapFind a.myPredefinedTagsMML SUMO_ATTR_TYPE = some name →
          mapFind a.myAttrs name = some s → NodeTypes.hasString s = true →
          a.getNodeType SUMO_ATTR_TYPE NodeTypes NODETYPE_UNKNOWN ok
            = some (NodeTypes.get s, ok))
        ∧ (∀ name s, mapFind a.myPredefinedTagsMML SUMO_ATTR_TYPE = some name →
          mapFind a.myAttrs name = some s → NodeTypes.hasString s = false →
          a.getNodeType SUMO_ATTR_TYPE NodeTypes NODETYPE_UNKNOWN ok
            = some (NODETYPE_UNKNOWN, false))
        ∧ (mapFind a.myPredefinedTagsMML SUMO_ATTR_TYPE = none →
          a.getNodeType SUMO_ATTR_TYPE NodeTypes NODETYPE_UNKNOWN ok
            = some (NODETYPE_UNKNOWN, ok))
        ∧ (∀ name, mapFind a.myPredefinedTagsMML SUMO_ATTR_TYPE = some name →
          mapFind a.myAttrs name = none →
          a.getNodeType SUMO_ATTR_TYPE NodeTypes NODETYPE_UNKNOWN ok
            = some (NODETYPE_UNKNOWN, ok))
        ∧ (∃ r, a.getNodeType SUMO_ATTR_TYPE NodeTypes NODETYPE_UNKNOWN ok = some r
            ∧ (r.2 = true → ok = true)))
      ∧ ((∀ name s, mapFind a.myPredefinedTagsMML SUMO_ATTR_RIGHT_OF_WAY = some name →
          mapFind a.myAttrs name = some s → RightOfWayValues.hasString s = true →
          a.getRightOfWay SUMO_ATTR_RIGHT_OF_WAY RightOfWayValues RIGHT_OF_WAY_DEFAULT ok
            = some (RightOfWayValues.get s, ok))
        ∧ (∀ name s, mapFind a.myPredefinedTagsMML SUMO_ATTR_RIGHT_OF_WAY = some name →
          mapFind a.myAttrs name = some s → RightOfWayValues.hasString s = false →
          a.getRightOfWay SUMO_ATTR_RIGHT_OF_WAY RightOfWayValues RIGHT_OF_WAY_DEFAULT ok
            = some (RIGHT_OF_WAY_DEFAULT, false))
        ∧ (mapFind a.myPredefinedTagsMML SUMO_ATTR_RIGHT_OF_WAY = none →
          a.getRightOfWay SUMO_ATTR_RIGHT_OF_WAY RightOfWayValues RIGHT_OF_WAY_DEFAULT ok
            = some (RIGHT_OF_WAY_DEFAULT, ok))
        ∧ (∀ name, mapFind a.myPredefinedTagsMML SUMO_ATTR_RIGHT_OF_WAY = some name →
          mapFind a.myAttrs name = none →
          a.getRightOfWay SUMO_ATTR_RIGHT_OF_WAY RightOfWayValues RIGHT_OF_WAY_DEFAULT ok
            = some (RIGHT_OF_WAY_DEFAULT, ok))
        ∧ (∃ r,
            a.getRightOfWay SUMO_ATTR_RIGHT_OF_WAY RightOfWayValues RIGHT_OF_WAY_DEFAULT ok
              = some r
            ∧ (r.2 = true → ok = true))) := by
  refine ⟨⟨?_, ?_, ?_, ?_, ?_⟩, ⟨?_, ?_, ?_, ?_, ?_⟩, ⟨?_, ?_, ?_, ?_, ?_⟩⟩
  · intro name s htag hval hknown
    have hhas := (hasAttribute_iff a SUMO_ATTR_FUNCTION).mpr ⟨name, s, htag, hval⟩
    simp [getEdgeFunc, hhas, getString_of_present a _ name s htag hval, hknown]
  · intro name s htag hval hknown
    have hhas := (hasAttribute_iff a SUMO_ATTR_FUNCTION).mpr ⟨name, s, htag, hval⟩
    simp [getEdgeFunc, hhas, getString_of_present a _ name s htag hval, hknown]
  · intro htag
    simp [getEdgeFunc, hasAttribute, htag]
  · intro name htag hval
    simp [getEdgeFunc, hasAttribute, htag, hval]
  · cases hhas : a.hasAttribute SUMO_ATTR_FUNCTION with
    | false => simp [getEdgeFunc, hhas]
    | true =>
      obtain ⟨s, hs⟩ := getString_of_hasAttribute a SUMO_ATTR_FUNCTION hhas
      cases hknown : EdgeFunctions.hasString s <;>
        simp [getEdgeFunc, hhas, hs, hknown]
  · intro name s htag hval hknown
    have hhas := (hasAttribute_iff a SUMO_ATTR_TYPE).mpr ⟨name, s, htag, hval⟩
    simp [getNodeType, hhas, getString_of_present a _ name s htag hval, hknown]
  · intro name s htag hval hknown
    have hhas := (hasAttribute_iff a SUMO_ATTR_TYPE).mpr ⟨name, s, htag, hval⟩
    simp [getNodeType, hhas, getString_of_present a _ name s htag hval, hknown]
  · intro htag
    simp [getNodeType, hasAttribute, htag]
  · intro name htag hval
    simp [getNodeType, hasAttribute, htag, hval]
  · cases hhas : a.hasAttribute SUMO_ATTR_TYPE with
    | false => simp [getNodeType, hhas]
    | true =>
      obtain ⟨s, hs⟩ := getString_of_hasAttribute a SUMO_ATTR_TYPE hhas
      cases hknown : NodeTypes.hasString s <;>
        simp [getNodeType, hhas, hs, hknown]
  · intro name s htag hval hknown
    have hhas := (hasAttribute_iff a SUMO_ATTR_RIGHT_OF_WAY).mpr ⟨name, s, htag, hval⟩
    simp [getRightOfWay, hhas, getString_of_present a _ name s htag hval, hknown]
  · intro name s htag hval hknown
    have hhas := (hasAttribute_iff a SUMO_ATTR_RIGHT_OF_WAY).mpr ⟨name, s, htag, hval⟩
    simp [getRightOfWay, hhas, getString_of_present a _ name s htag hval, hknown]
  · intro htag
    simp [getRightOfWay, hasAttribute, htag]
  · intro name htag hval
    simp [getRightOfWay, hasAttribute, htag, hval]
  · cases hhas : a.hasAttribute SUMO_ATTR_RIGHT_OF_WAY with
    | false => simp [getRightOfWay, hhas]
    | true =>
      obtain ⟨s, hs⟩ := getString_of_hasAttribute a SUMO_ATTR_RIGHT_OF_WAY hhas
      cases hknown : RightOfWayValues.hasString s <;>
        simp [getRightOfWay, hhas, hs, hknown]

/-- C13 (witness): on the sample edge, whose function attribute is "crossing",
`getEdgeFunc` returns the entry of the table and keeps `ok`; with the value "ramp",
which the table does not know, it returns the default and sets `ok` to false; for the
id 9, which is no predefined tag, it returns the default and keeps `ok`. -/
theorem enum_getters_report_through_ok_witness :
    sampleEdge.getEdgeFunc 2 sampleEdgeFunctions 0 true = some (1, true)
      ∧ ({ sampleEdge with myAttrs := [("function", "ramp")] }
            : SUMOSAXAttributesImpl_Cached).getEdgeFunc 2 sampleEdgeFunctions 0 true
          = some (0, false)
      ∧ sampleEdge.getEdgeFunc 9 sampleEdgeFunctions 0 true = some (0, true) :=
  ⟨(enum_getters_report_through_ok sampleEdge 2 2 2 sampleEdgeFunctions
      sampleEdgeFunctions sampleEdgeFunctions 0 0 0 true).1.1 "function" "crossing"
      (by decide) (by decide) (by decide),
    (enum_getters_report_through_ok
      ({ sampleEdge with myAttrs := [("function", "ramp")] } : SUMOSAXAttributesImpl_Cached)
      2 2 2 sampleEdgeFunctions sampleEdgeFunctions sampleEdgeFunctions 0 0 0 true).1.2.1
      "function" "ramp" (by decide) (by decide) (by decide),
    (enum_getters_report_through_ok sampleEdge 9 9 9 sampleEdgeFunctions
      sampleEdgeFunctions sampleEdgeFunctions 0 0 0 true).1.2.2.1 (by decide)⟩

end SUMOSAXAttributesImpl_Cached

namespace SUMOSAXAttributesImpl_Cached

/-- C15: for a present attribute whose comma-separated fields all convert to numbers,
`getBoundary` throws `FormatException` (with the message "boundary format") if and only
if the value does not have exactly 4 fields; with exactly 4 fields it returns
`Boundary(xmin, ymin, xmax, ymax)` built from the numbers of the first, second, third and
fourth field, in that order. -/
theorem getBoundary_four_fields (u : StringTools) (a : SUMOSAXAttributesImpl_Cached)
    (attr : Int) (value : String) (hval : a.getString attr = some value)
    (hnum : ∀ c ∈ u.tokenizeAt value ",", ∃ x, u.toDouble c = some x) :
    ((∃ what, a.getBoundary u attr = .error (.formatException what))
        ↔ (u.tokenizeAt value ",").length ≠ 4)
      ∧ ((u.tokenizeAt value ",").length ≠ 4 →
          a.getBoundary u attr = .error (.formatException "boundary format"))
      ∧ (∀ s1 s2 s3 s4, u.tokenizeAt value "," = [s1, s2, s3, s4] →
          ∃ xmin ymin xmax ymax, u.toDouble s1 = some xmin ∧ u.toDouble s2 = some ymin
            ∧ u.toDouble s3 = some xmax ∧ u.toDouble s4 = some ymax
            ∧ a.getBoundary u attr = .ok (Boundary.ofCorners xmin ymin xmax ymax)) := by
  have hthrow : (u.tokenizeAt value ",").length ≠ 4 →
      a.getBoundary u attr = .error (.formatException "boundary format") := by
    intro hlen
    simp [getBoundary, hval, hlen]
  have hfour : ∀ s1 s2 s3 s4, u.tokenizeAt value "," = [s1, s2, s3, s4] →
      ∃ xmin ymin xmax ymax, u.toDouble s1 = some xmin ∧ u.toDouble s2 = some ymin
        ∧ u.toDouble s3 = some xmax ∧ u.toDouble s4 = some ymax
        ∧ a.getBoundary u attr = .ok (Boundary.ofCorners xmin ymin xmax ymax) := by
    intro s1 s2 s3 s4 hst
    rw [hst] at hnum
    obtain ⟨xmin, h1⟩ := hnum s1 (by simp)
    obtain ⟨ymin, h2⟩ := hnum s2 (by simp)
    obtain ⟨xmax, h3⟩ := hnum s3 (by simp)
    obtain ⟨ymax, h4⟩ := hnum s4 (by simp)
    exact ⟨xmin, ymin, xmax, ymax, h1, h2, h3, h4,
      by simp [getBoundary, hval, hst, h1, h2, h3, h4]⟩
  refine ⟨⟨?_, fun hlen => ⟨_, hthrow hlen⟩⟩, hthrow, hfour⟩
  rintro ⟨what, hwhat⟩ hlen
  rcases hst : u.tokenizeAt value "," with _ | ⟨s1, _ | ⟨s2, _ | ⟨s3, _ | ⟨s4, _ | ⟨s5, more⟩⟩⟩⟩⟩
  · rw [hst] at hlen; simp at hlen
  · rw [hst] at hlen; simp at hlen
  · rw [hst] at hlen; simp at hlen
  · rw [hst] at hlen; simp at hlen
  · obtain ⟨xmin, ymin, xmax, ymax, _, _, _, _, hok⟩ := hfour s1 s2 s3 s4 hst
    rw [hok] at hwhat
    exact absurd hwhat (by simp)
  · rw [hst] at hlen; simp at hlen

/-- C15 (witness): the boundary attribute "0,0,10,20" of the sample edge. -/
theorem getBoundary_four_fields_witness :
    sampleEdge.getString 4 = some "0,0,10,20"
      ∧ sampleEdge.getBoundary sampleTools 4 = .ok (Boundary.ofCorners 0 0 10 20)
      ∧ ((∃ what, sampleEdge.getBoundary sampleTools 4 = .error (.formatException what))
          ↔ (sampleTools.tokenizeAt "0,0,10,20" ",").length ≠ 4) :=
  ⟨by decide, by rfl,
    (getBoundary_four_fields sampleTools sampleEdge 4 "0,0,10,20" (by decide)
      (by
        intro c hc
        have hst : sampleTools.tokenizeAt "0,0,10,20" "," = ["0", "0", "10", "20"] := by
          decide
        rw [hst] at hc
        simp only [List.mem_cons, List.mem_singleton, List.not_mem_nil, or_false] at hc
        rcases hc with h | h | h | h <;> subst h
        · exact ⟨0, by rfl⟩
        · exact ⟨0, by rfl⟩
        · exact ⟨10, by rfl⟩
        · exact ⟨20, by rfl⟩)).1⟩

theorem serialize_foldl (attrs : List (String × String)) (os : String) :
    attrs.foldl (fun out it => out ++ " " ++ it.1 ++ "=\"" ++ it.2 ++ "\"") os
      = os ++ (attrs.map serializeEntry).foldr (fun s acc => s ++ acc) "" := by
  induction attrs generalizing os with
  | nil => simp
  | cons it rest ih =>
    rw [List.foldl_cons, ih, List.map_cons, List.foldr_cons]
    simp only [serializeEntry, String.append_assoc]

/-- C16: the clone of an attributes object has the same attribute map, the same map of
predefined tags and the same object type, and is the object itself as a value (`clone` is
a `const` member function, the object is not changed); so `hasAttribute`, `getString`,
`getStringSecure` (both overloads) and `getName` return on the clone what they return on
the object, and `serialize` writes the same text, namely each attribute of the map once,
with the value `mapFind` reads, as ` name="value"`, in strictly ascending order of the
names. -/
theorem clone_preserves_observations (a : SUMOSAXAttributesImpl_Cached) (id : Int)
    (name str os : String) :
    a.clone.myAttrs = a.myAttrs
      ∧ a.clone.myPredefinedTagsMML = a.myPredefinedTagsMML
      ∧ a.clone.getObjectType = a.getObjectType
      ∧ a.clone = a
      ∧ a.clone.hasAttribute id = a.hasAttribute id
      ∧ a.clone.hasAttributeName name = a.hasAttributeName name
      ∧ a.clone.getString id = a.getString id
      ∧ a.clone.getStringSecure id str = a.getStringSecure id str
      ∧ a.clone.getStringSecureName name str = a.getStringSecureName name str
      ∧ a.clone.getName id = a.getName id
      ∧ a.clone.serialize os = a.serialize os
      ∧ a.clone.serialize os
          = os ++ ((mapIterate a.myAttrs).map serializeEntry).foldr (fun s acc => s ++ acc) ""
      ∧ List.Pairwise (fun x y : String => x < y) ((mapIterate a.myAttrs).map Prod.fst)
      ∧ mapFind (mapIterate a.myAttrs) name = mapFind a.myAttrs name := by
  have hclone : a.clone = a := rfl
  refine ⟨rfl, rfl, rfl, rfl, ?_, ?_, ?_, ?_, ?_, ?_, ?_, ?_,
    List.pairwise_map.mpr (mapIterate_sorted a.myAttrs), mapFind_mapIterate a.myAttrs name⟩
  all_goals try rw [hclone]
  exact serialize_foldl (mapIterate a.myAttrs) os

/-- C16 (witness): an object whose attributes were given with "id" before "boundary":
the clone writes "boundary" first. -/
theorem clone_preserves_observations_witness :
    (construct [("id", "e1"), ("boundary", "0,0,10,20")] [(1, "id")] "edge").clone.serialize ""
      = " boundary=\"0,0,10,20\" id=\"e1\"" :=
  ((clone_preserves_observations
      (construct [("id", "e1"), ("boundary", "0,0,10,20")] [(1, "id")] "edge") 1 "id" "" "").2.2.2.2.2.2.2.2.2.2.1).trans
    (by decide!)

end SUMOSAXAttributesImpl_Cached

namespace SUMOSAXAttributesImpl_Cached

theorem getShapeLoop_bad (u : StringTools) (tok : String) (st : List String)
    (shape : PositionVector)
    (hbad : (u.tokenizeAt tok ",").length ≠ 2 ∧ (u.tokenizeAt tok ",").length ≠ 3) :
    getShapeLoop u (tok :: st) shape = .error (.formatException "shape format") := by
  simp [getShapeLoop, hbad]

theorem getShapeLoop_two (u : StringTools) (tok : String) (st : List String)
    (shape : PositionVector) (sx sy : String) (x y : ℚ)
    (hpos : u.tokenizeAt tok "," = [sx, sy]) (hx : u.toDouble sx = some x)
    (hy : u.toDouble sy = some y) :
    getShapeLoop u (tok :: st) shape = getShapeLoop u st (shape ++ [Position.xy x y]) := by
  simp [getShapeLoop, hpos, hx, hy]

theorem getShapeLoop_three (u : StringTools) (tok : String) (st : List String)
    (shape : PositionVector) (sx sy sz : String) (x y z : ℚ)
    (hpos : u.tokenizeAt tok "," = [sx, sy, sz]) (hx : u.toDouble sx = some x)
    (hy : u.toDouble sy = some y) (hz : u.toDouble sz = some z) :
    getShapeLoop u (tok :: st) shape
      = getShapeLoop u st (shape ++ [Position.xyz x y z]) := by
  simp [getShapeLoop, hpos, hx, hy, hz]

theorem getShapeLoop_step (u : StringTools) (tok : String) (st : List String)
    (shape : PositionVector)
    (hnum : ∀ c ∈ u.tokenizeAt tok ",", ∃ x, u.toDouble c = some x)
    (hgood : (u.tokenizeAt tok ",").length = 2 ∨ (u.tokenizeAt tok ",").length = 3) :
    ∃ p, tokenPosition u tok p
      ∧ getShapeLoop u (tok :: st) shape = getShapeLoop u st (shape ++ [p]) := by
  rcases hgood with h2 | h3
  · obtain ⟨sx, sy, hpos⟩ := List.length_eq_two.mp h2
    obtain ⟨x, hx⟩ := hnum sx (by simp [hpos])
    obtain ⟨y, hy⟩ := hnum sy (by simp [hpos])
    exact ⟨Position.xy x y, Or.inl ⟨sx, sy, x, y, hpos, hx, hy, rfl⟩,
      getShapeLoop_two u tok st shape sx sy x y hpos hx hy⟩
  · obtain ⟨sx, sy, sz, hpos⟩ := List.length_eq_three.mp h3
    obtain ⟨x, hx⟩ := hnum sx (by simp [hpos])
    obtain ⟨y, hy⟩ := hnum sy (by simp [hpos])
    obtain ⟨z, hz⟩ := hnum sz (by simp [hpos])
    exact ⟨Position.xyz x y z, Or.inr ⟨sx, sy, sz, x, y, z, hpos, hx, hy, hz, rfl⟩,
      getShapeLoop_three u tok st shape sx sy sz x y z hpos hx hy hz⟩

theorem getShapeLoop_ok (u : StringTools) (st : List String) (shape : PositionVector)
    (hnum : ∀ tok ∈ st, ∀ c ∈ u.tokenizeAt tok ",", ∃ x, u.toDouble c = some x)
    (hgood : ∀ tok ∈ st,
      (u.tokenizeAt tok ",").length = 2 ∨ (u.tokenizeAt tok ",").length = 3) :
    ∃ more, getShapeLoop u st shape = .ok (shape ++ more)
      ∧ List.Forall₂ (tokenPosition u) st more := by
  induction st generalizing shape with
  | nil => exact ⟨[], by simp [getShapeLoop], List.Forall₂.nil⟩
  | cons tok rest ih =>
    obtain ⟨p, hp, hstep⟩ := getShapeLoop_step u tok rest shape
      (hnum tok (List.mem_cons_self tok rest)) (hgood tok (List.mem_cons_self tok rest))
    obtain ⟨more, hmore, hall⟩ := ih (shape ++ [p])
      (fun t ht => hnum t (List.mem_cons_of_mem tok ht))
      (fun t ht => hgood t (List.mem_cons_of_mem tok ht))
    refine ⟨p :: more, ?_, List.Forall₂.cons hp hall⟩
    rw [hstep, hmore, List.append_assoc]
    rfl

theorem getShapeLoop_throws (u : StringTools) (st : List String) (shape : PositionVector)
    (hnum : ∀ tok ∈ st, ∀ c ∈ u.tokenizeAt tok ",", ∃ x, u.toDouble c = some x)
    (hbad : ∃ tok ∈ st,
      (u.tokenizeAt tok ",").length ≠ 2 ∧ (u.tokenizeAt tok ",").length ≠ 3) :
    getShapeLoop u st shape = .error (.formatException "shape format") := by
  induction st generalizing shape with
  | nil =>
    obtain ⟨tok, htok, _⟩ := hbad
    exact absurd htok (List.not_mem_nil tok)
  | cons tok rest ih =>
    by_cases hhead : (u.tokenizeAt tok ",").length ≠ 2 ∧ (u.tokenizeAt tok ",").length ≠ 3
    · exact getShapeLoop_bad u tok rest shape hhead
    · have hgood : (u.tokenizeAt tok ",").length = 2 ∨ (u.tokenizeAt tok ",").length = 3 := by
        by_contra hcon
        exact hhead ⟨fun h => hcon (Or.inl h), fun h => hcon (Or.inr h)⟩
      obtain ⟨p, _, hstep⟩ := getShapeLoop_step u tok rest shape
        (hnum tok (List.mem_cons_self tok rest)) hgood
      rw [hstep]
      apply ih (shape ++ [p]) (fun t ht => hnum t (List.mem_cons_of_mem tok ht))
      obtain ⟨t, ht, htbad⟩ := hbad
      rcases List.mem_cons.mp ht with h | h
      · subst h; exact absurd htbad hhead
      · exact ⟨t, h, htbad⟩

/-- C14: for a present attribute whose value splits into whitespace-separated tokens
whose comma-separated components all convert to numbers, `getShape` throws
`FormatException` (with the message "shape format") if and only if some token has a
number of components other than 2 and 3; otherwise it returns a shape with exactly one
position per token, in the order of the tokens, `Position(x, y)` for a token of two
components and `Position(x, y, z)` for a token of three; a value without tokens, as the
empty value is for a tokenizer that finds no token in it, yields the empty shape. -/
theorem getShape_parses_or_rejects (u : StringTools) (a : SUMOSAXAttributesImpl_Cached)
    (attr : Int) (value : String) (hval : a.getString attr = some value)
    (hnum : ∀ tok ∈ u.tokenize value, ∀ c ∈ u.tokenizeAt tok ",",
      ∃ x, u.toDouble c = some x) :
    ((∃ what, a.getShape u attr = .error (.formatException what))
        ↔ ∃ tok ∈ u.tokenize value,
            (u.tokenizeAt tok ",").length ≠ 2 ∧ (u.tokenizeAt tok ",").length ≠ 3)
      ∧ ((∃ tok ∈ u.tokenize value,
            (u.tokenizeAt tok ",").length ≠ 2 ∧ (u.tokenizeAt tok ",").length ≠ 3) →
          a.getShape u attr = .error (.formatException "shape format"))
      ∧ ((∀ tok ∈ u.tokenize value,
            (u.tokenizeAt tok ",").length = 2 ∨ (u.tokenizeAt tok ",").length = 3) →
          ∃ shape, a.getShape u attr = .ok shape
            ∧ shape.length = (u.tokenize value).length
            ∧ List.Forall₂ (tokenPosition u) (u.tokenize value) shape)
      ∧ (u.tokenize value = [] → a.getShape u attr = .ok [])
      ∧ (value = "" → u.tokenize "" = [] → a.getShape u attr = .ok []) := by
  have hshape : a.getShape u attr = getShapeLoop u (u.tokenize value) [] := by
    simp [getShape, hval]
  have hthrow : (∃ tok ∈ u.tokenize value,
      (u.tokenizeAt tok ",").length ≠ 2 ∧ (u.tokenizeAt tok ",").length ≠ 3) →
      a.getShape u attr = .error (.formatException "shape format") := by
    intro hbad
    rw [hshape]
    exact getShapeLoop_throws u (u.tokenize value) [] hnum hbad
  have hok : (∀ tok ∈ u.tokenize value,
      (u.tokenizeAt tok ",").length = 2 ∨ (u.tokenizeAt tok ",").length = 3) →
      ∃ shape, a.getShape u attr = .ok shape
        ∧ shape.length = (u.tokenize value).length
        ∧ List.Forall₂ (tokenPosition u) (u.tokenize value) shape := by
    intro hgood
    obtain ⟨more, hmore, hall⟩ := getShapeLoop_ok u (u.tokenize value) [] hnum hgood
    refine ⟨more, ?_, hall.length_eq.symm, hall⟩
    rw [hshape, hmore, List.nil_append]
  have hempty : u.tokenize value = [] → a.getShape u attr = .ok [] := by
    intro hnil
    rw [hshape, hnil]
    rfl
  refine ⟨⟨?_, fun hbad => ⟨_, hthrow hbad⟩⟩, hthrow, hok, hempty, ?_⟩
  · rintro ⟨what, hwhat⟩
    by_contra hnone
    have hgood : ∀ tok ∈ u.tokenize value,
        (u.tokenizeAt tok ",").length = 2 ∨ (u.tokenizeAt tok ",").length = 3 := by
      intro tok htok
      by_contra hcon
      exact hnone ⟨tok, htok, fun h => hcon (Or.inl h), fun h => hcon (Or.inr h)⟩
    obtain ⟨shape, hshape', _, _⟩ := hok hgood
    rw [hshape'] at hwhat
    exact absurd hwhat (by simp)
  · intro hv hnil
    subst hv
    exact hempty hnil

end SUMOSAXAttributesImpl_Cached

namespace SUMOSAXAttributesImpl_Cached

/-- C14 (witness): the shape attribute "0,0 10,20,3" of the sample edge, a token of two
components followed by a token of three. -/
theorem getShape_parses_or_rejects_witness :
    sampleEdge.getString 3 = some "0,0 10,20,3"
      ∧ sampleEdge.getShape sampleTools 3 = .ok [Position.xy 0 0, Position.xyz 10 20 3]
      ∧ ∃ shape, sampleEdge.getShape sampleTools 3 = .ok shape
          ∧ shape.length = (sampleTools.tokenize "0,0 10,20,3").length
          ∧ List.Forall₂ (tokenPosition sampleTools) (sampleTools.tokenize "0,0 10,20,3")
              shape := by
  have htokens : sampleTools.tokenize "0,0 10,20,3" = ["0,0", "10,20,3"] := by decide
  have hfirst : sampleTools.tokenizeAt "0,0" "," = ["0", "0"] := by decide
  have hsecond : sampleTools.tokenizeAt "10,20,3" "," = ["10", "20", "3"] := by decide
  refine ⟨by decide, by rfl,
    (getShape_parses_or_rejects sampleTools sampleEdge 3 "0,0 10,20,3" (by decide)
      ?_).2.2.1 ?_⟩
  · intro tok htok c hc
    rw [htokens] at htok
    simp only [List.mem_cons, List.mem_singleton, List.not_mem_nil, or_false] at htok
    rcases htok with h | h <;> subst h
    · rw [hfirst] at hc
      simp only [List.mem_cons, List.mem_singleton, List.not_mem_nil, or_false] at hc
      rcases hc with h | h <;> subst h <;> exact ⟨0, by rfl⟩
    · rw [hsecond] at hc
      simp only [List.mem_cons, List.mem_singleton, List.not_mem_nil, or_false] at hc
      rcases hc with h | h | h <;> subst h
      · exact ⟨10, by rfl⟩
      · exact ⟨20, by rfl⟩
      · exact ⟨3, by rfl⟩
  · intro tok htok
    rw [htokens] at htok
    simp only [List.mem_cons, List.mem_singleton, List.not_mem_nil, or_false] at htok
    rcases htok with h | h <;> subst h
    · exact Or.inl (by rw [hfirst]; rfl)
    · exact Or.inr (by rw [hsecond]; rfl)

end SUMOSAXAttributesImpl_Cached

/-! ## `MSInstantInductLoop` -/

/-- C7: `writeXMLOutput` writes nothing to the device and leaves the detector (monitored
position, last exit time, table of entry times) as it was, for every start and stop
time. -/
theorem MSInstantInductLoop.writeXMLOutput_no_effect (d : MSInstantInductLoop)
    (dev : OutputDevice) (startTime stopTime : Int) :
    (d.writeXMLOutput dev startTime stopTime).2 = dev
      ∧ (d.writeXMLOutput dev startTime stopTime).1 = d
      ∧ (d.writeXMLOutput dev startTime stopTime).1.myPosition = d.myPosition
      ∧ (d.writeXMLOutput dev startTime stopTime).1.myLastExitTime = d.myLastExitTime
      ∧ (d.writeXMLOutput dev startTime stopTime).1.myEntryTimes = d.myEntryTimes :=
  ⟨rfl, rfl, rfl, rfl, rfl⟩

namespace MSInstantInductLoop

/-! ### The table of entry times after the front check -/

theorem find_entryTimesAfterFront_self (d : MSInstantInductLoop) (veh : SUMOVehicle)
    (t0 t1 oldPos newPos newSpeed : ℚ) :
    mapFind (entryTimesAfterFront d veh t0 t1 oldPos newPos newSpeed) veh.numericalID
      = if (mapFind d.myEntryTimes veh.numericalID).isNone
            ∧ oldPos ≤ d.myPosition ∧ d.myPosition ≤ newPos then
          some (passingTime t0 t1 oldPos d.myPosition newPos newSpeed)
        else mapFind d.myEntryTimes veh.numericalID := by
  unfold entryTimesAfterFront
  split
  · exact mapFind_mapInsert_self _ _ _
  · rfl

theorem find_entryTimesAfterFront_of_ne (d : MSInstantInductLoop) (veh : SUMOVehicle)
    (t0 t1 oldPos newPos newSpeed : ℚ) (k : Int) (hk : k ≠ veh.numericalID) :
    mapFind (entryTimesAfterFront d veh t0 t1 oldPos newPos newSpeed) k
      = mapFind d.myEntryTimes k := by
  unfold entryTimesAfterFront
  split
  · exact mapFind_mapInsert_of_ne _ _ _ _ hk
  · rfl

/-! ### `notifyLeave` -/

theorem notifyLeave_of_not_found (d : MSInstantInductLoop) (veh : SUMOVehicle)
    (t lastPos : ℚ) (reason : Notification)
    (h : mapFind d.myEntryTimes veh.numericalID = none) :
    d.notifyLeave veh t lastPos reason = { det := d, records := [] } := by
  simp [notifyLeave, h]

theorem notifyLeave_of_found (d : MSInstantInductLoop) (veh : SUMOVehicle)
    (t lastPos : ℚ) (reason : Notification) (e : ℚ)
    (h : mapFind d.myEntryTimes veh.numericalID = some e) :
    d.notifyLeave veh t lastPos reason
      = { det := { d with myEntryTimes := mapErase d.myEntryTimes veh.numericalID }
          records := [{ vehicle := veh.numericalID, entryTime := t, exitTime := t,
                        exitSpeed := veh.speed, kind := dismissKind reason }] } := by
  simp [notifyLeave, h]

theorem find_notifyLeave_self (d : MSInstantInductLoop) (veh : SUMOVehicle)
    (t lastPos : ℚ) (reason : Notification) :
    mapFind (d.notifyLeave veh t lastPos reason).det.myEntryTimes veh.numericalID = none := by
  cases h : mapFind d.myEntryTimes veh.numericalID with
  | none => rw [notifyLeave_of_not_found d veh t lastPos reason h]; exact h
  | some e =>
    rw [notifyLeave_of_found d veh t lastPos reason e h]
    exact mapFind_mapErase_self _ _

theorem find_notifyLeave_of_ne (d : MSInstantInductLoop) (veh : SUMOVehicle)
    (t lastPos : ℚ) (reason : Notification) (k : Int) (hk : k ≠ veh.numericalID) :
    mapFind (d.notifyLeave veh t lastPos reason).det.myEntryTimes k
      = mapFind d.myEntryTimes k := by
  cases h : mapFind d.myEntryTimes veh.numericalID with
  | none => rw [notifyLeave_of_not_found d veh t lastPos reason h]
  | some e =>
    rw [notifyLeave_of_found d veh t lastPos reason e h]
    exact mapFind_mapErase_of_ne _ _ _ hk

/-- C5: `notifyLeave` on a vehicle with an open crossing hands exactly one record (a
dismiss record of that vehicle) to the sink, removes the entry time of the vehicle and
leaves the entry of every other vehicle, the position and the last exit time unchanged;
on a vehicle without an open crossing it leaves the detector unchanged and emits
nothing; hence a second `notifyLeave` right after a first one is a no-op. -/
theorem notifyLeave_dismissal_idempotent (d : MSInstantInductLoop) (veh : SUMOVehicle)
    (t lastPos t2 lastPos2 : ℚ) (reason reason2 : Notification) :
    ((mapFind d.myEntryTimes veh.numericalID).isSome = true →
        (d.notifyLeave veh t lastPos reason).records
            = [{ vehicle := veh.numericalID, entryTime := t, exitTime := t,
                 exitSpeed := veh.speed, kind := dismissKind reason }]
          ∧ (d.notifyLeave veh t lastPos reason).records.length = 1
          ∧ mapFind (d.notifyLeave veh t lastPos reason).det.myEntryTimes veh.numericalID
              = none
          ∧ (∀ k, k ≠ veh.numericalID →
              mapFind (d.notifyLeave veh t lastPos reason).det.myEntryTimes k
                = mapFind d.myEntryTimes k)
          ∧ (d.notifyLeave veh t lastPos reason).det.myPosition = d.myPosition
          ∧ (d.notifyLeave veh t lastPos reason).det.myLastExitTime = d.myLastExitTime)
      ∧ (mapFind d.myEntryTimes veh.numericalID = none →
          (d.notifyLeave veh t lastPos reason).det = d
            ∧ (d.notifyLeave veh t lastPos reason).records = [])
      ∧ ((d.notifyLeave veh t lastPos reason).det.notifyLeave veh t2 lastPos2 reason2).det
          = (d.notifyLeave veh t lastPos reason).det
      ∧ ((d.notifyLeave veh t lastPos reason).det.notifyLeave veh t2 lastPos2 reason2).records
          = [] := by
  have hsecond := notifyLeave_of_not_found (d.notifyLeave veh t lastPos reason).det veh
    t2 lastPos2 reason2 (find_notifyLeave_self d veh t lastPos reason)
  refine ⟨?_, ?_, ?_, ?_⟩
  · intro hsome
    obtain ⟨e, he⟩ := Option.isSome_iff_exists.mp hsome
    refine ⟨?_, ?_, find_notifyLeave_self d veh t lastPos reason,
      fun k hk => find_notifyLeave_of_ne d veh t lastPos reason k hk, ?_, ?_⟩ <;>
    simp [notifyLeave_of_found d veh t lastPos reason e he]
  · intro hnone
    rw [notifyLeave_of_not_found d veh t lastPos reason hnone]
    exact ⟨rfl, rfl⟩
  · rw [hsecond]
  · rw [hsecond]

/-! ### `notifyMove` -/

theorem notifyMove_of_excluded (d : MSInstantInductLoop) (veh : SUMOVehicle)
    (t0 t1 oldPos newPos newSpeed : ℚ) (h : vehicleApplies d veh = false) :
    d.notifyMove veh t0 t1 oldPos newPos newSpeed = { det := d, records := [], keep := false } := by
  simp [notifyMove, h]

theorem notifyMove_of_beyond_untracked (d : MSInstantInductLoop) (veh : SUMOVehicle)
    (t0 t1 oldPos newPos newSpeed : ℚ) (hacc : vehicleApplies d veh = true)
    (h : mapFind (entryTimesAfterFront d veh t0 t1 oldPos newPos newSpeed) veh.numericalID
      = none)
    (hback : d.myPosition < newPos - veh.length) :
    d.notifyMove veh t0 t1 oldPos newPos newSpeed
      = { det := { d with
            myEntryTimes := entryTimesAfterFront d veh t0 t1 oldPos newPos newSpeed }
          records := [], keep := false } := by
  simp [notifyMove, hacc, h, hback]

theorem notifyMove_of_straddling (d : MSInstantInductLoop) (veh : SUMOVehicle)
    (t0 t1 oldPos newPos newSpeed : ℚ) (hacc : vehicleApplies d veh = true)
    (hback : ¬ d.myPosition < newPos - veh.length) :
    d.notifyMove veh t0 t1 oldPos newPos newSpeed
      = { det := { d with
            myEntryTimes := entryTimesAfterFront d veh t0 t1 oldPos newPos newSpeed }
          records := [], keep := true } := by
  simp [notifyMove, hacc, hback]

theorem notifyMove_of_cleared (d : MSInstantInductLoop) (veh : SUMOVehicle)
    (t0 t1 oldPos newPos newSpeed e : ℚ) (hacc : vehicleApplies d veh = true)
    (h : mapFind (entryTimesAfterFront d veh t0 t1 oldPos newPos newSpeed) veh.numericalID
      = some e)
    (hback : d.myPosition < newPos - veh.length) :
    d.notifyMove veh t0 t1 oldPos newPos newSpeed
      = { det := { d with
            myLastExitTime := passingTime t0 t1 (oldPos - veh.length) d.myPosition
              (newPos - veh.length) newSpeed
            myEntryTimes := mapErase
              (entryTimesAfterFront d veh t0 t1 oldPos newPos newSpeed) veh.numericalID }
          records := [{ vehicle := veh.numericalID, entryTime := e,
                        exitTime := passingTime t0 t1 (oldPos - veh.length) d.myPosition
                          (newPos - veh.length) newSpeed
                        exitSpeed := newSpeed, kind := .pass }]
          keep := false } := by
  simp [notifyMove, hacc, h, hback]

/-- C2: for a vehicle accepted by the type filter, `notifyMove` returns true if and only
if the vehicle has not passed the detector completely: it returns false exactly when the
trailing edge `newPos - length` has passed the monitored position, and true while the
vehicle has not yet reached the position or still straddles it. -/
theorem notifyMove_keep_iff_not_passed (d : MSInstantInductLoop) (veh : SUMOVehicle)
    (t0 t1 oldPos newPos newSpeed : ℚ) (hacc : vehicleApplies d veh = true) :
    ((d.notifyMove veh t0 t1 oldPos newPos newSpeed).keep = true
        ↔ ¬ d.myPosition < newPos - veh.length)
      ∧ ((d.notifyMove veh t0 t1 oldPos newPos newSpeed).keep = false
        ↔ d.myPosition < newPos - veh.length)
      ∧ (0 ≤ veh.length → newPos < d.myPosition →
          (d.notifyMove veh t0 t1 oldPos newPos newSpeed).keep = true)
      ∧ (newPos - veh.length ≤ d.myPosition → d.myPosition ≤ newPos →
          (d.notifyMove veh t0 t1 oldPos newPos newSpeed).keep = true) := by
  have hkeep : (d.notifyMove veh t0 t1 oldPos newPos newSpeed).keep = true
      ↔ ¬ d.myPosition < newPos - veh.length := by
    by_cases hback : d.myPosition < newPos - veh.length
    · cases h : mapFind (entryTimesAfterFront d veh t0 t1 oldPos newPos newSpeed)
        veh.numericalID with
      | none =>
        rw [notifyMove_of_beyond_untracked d veh t0 t1 oldPos newPos newSpeed hacc h hback]
        simp [hback]
      | some e =>
        rw [notifyMove_of_cleared d veh t0 t1 oldPos newPos newSpeed e hacc h hback]
        simp [hback]
    · rw [notifyMove_of_straddling d veh t0 t1 oldPos newPos newSpeed hacc hback]
      simp [hback]
  refine ⟨hkeep, ?_, ?_, ?_⟩
  · rw [← Bool.not_eq_true, hkeep, not_not]
  · intro hlen hfront
    exact hkeep.mpr (not_lt.mpr (by linarith))
  · intro htail _
    exact hkeep.mpr (not_lt.mpr htail)

/-- C2 (witness): the accepted car moves from 200 m to 205 m beyond the detector at 100 m,
so its trailing edge, at 200 m, has passed the monitored position and the call returns
false; moving from 98 m to 103 m it straddles the position and the call returns true. -/
theorem notifyMove_keep_iff_not_passed_witness :
    vehicleApplies detectorAt100 car7 = true
      ∧ (detectorAt100.notifyMove car7 10 11 200 205 5).keep = false
      ∧ (detectorAt100.notifyMove car7 10 11 98 103 5).keep = true :=
  ⟨by decide,
    (notifyMove_keep_iff_not_passed detectorAt100 car7 10 11 200 205 5 (by decide)).2.1.mpr
      (by norm_num [detectorAt100, car7]),
    (notifyMove_keep_iff_not_passed detectorAt100 car7 10 11 98 103 5 (by decide)).1.mpr
      (by norm_num [detectorAt100, car7])⟩

/-! ### Entry-time interpolation -/

theorem passingTime_constant_speed (t0 t1 oldPos p v : ℚ) (ht : t0 < t1) (hv : 0 < v) :
    passingTime t0 t1 oldPos p (oldPos + v * (t1 - t0)) v = t0 + (p - oldPos) / v := by
  have hv0 : v ≠ 0 := ne_of_gt hv
  have hd : t1 - t0 ≠ 0 := ne_of_gt (sub_pos.mpr ht)
  unfold passingTime
  rw [if_neg hv0]
  have hden : oldPos + v * (t1 - t0) - oldPos = v * (t1 - t0) := by ring
  rw [hden]
  field_simp
  ring

/-- C1 (amended): for an accepted, untracked vehicle that moves at constant speed `v > 0`
through the step from `t0` to `t1` (`t0 < t1`, `newPos = oldPos + v * (t1 - t0)`) with
`oldPos < p ≤ newPos` for the monitored position `p`, the entry time of the front check
is `t0 + (p - oldPos) / v`: the table holds it after the call when the trailing edge has
not passed `p`, and the pass record of the call carries it otherwise. This value lies in
the interval `(t0, t1]`, and it is smaller than `t1` exactly when `p < newPos`. -/
theorem notifyMove_entry_time (d : MSInstantInductLoop) (veh : SUMOVehicle)
    (t0 t1 oldPos newPos v : ℚ) (hacc : vehicleApplies d veh = true)
    (hun : mapFind d.myEntryTimes veh.numericalID = none) (ht : t0 < t1) (hv : 0 < v)
    (hnew : newPos = oldPos + v * (t1 - t0)) (hlo : oldPos < d.myPosition)
    (hhi : d.myPosition ≤ newPos) :
    mapFind (entryTimesAfterFront d veh t0 t1 oldPos newPos v) veh.numericalID
        = some (t0 + (d.myPosition - oldPos) / v)
      ∧ (¬ d.myPosition < newPos - veh.length →
          mapFind (d.notifyMove veh t0 t1 oldPos newPos v).det.myEntryTimes veh.numericalID
            = some (t0 + (d.myPosition - oldPos) / v))
      ∧ (d.myPosition < newPos - veh.length →
          ∃ r, (d.notifyMove veh t0 t1 oldPos newPos v).records = [r]
            ∧ r.kind = EventKind.pass ∧ r.vehicle = veh.numericalID
            ∧ r.entryTime = t0 + (d.myPosition - oldPos) / v)
      ∧ t0 < t0 + (d.myPosition - oldPos) / v
      ∧ t0 + (d.myPosition - oldPos) / v ≤ t1
      ∧ (t0 + (d.myPosition - oldPos) / v < t1 ↔ d.myPosition < newPos) := by
  have hfind : mapFind (entryTimesAfterFront d veh t0 t1 oldPos newPos v) veh.numericalID
      = some (t0 + (d.myPosition - oldPos) / v) := by
    rw [find_entryTimesAfterFront_self, hun]
    have hcross : oldPos ≤ d.myPosition ∧ d.myPosition ≤ newPos := ⟨le_of_lt hlo, hhi⟩
    simp only [Option.isNone_none, true_and, if_pos hcross]
    rw [hnew, passingTime_constant_speed t0 t1 oldPos d.myPosition v ht hv]
  have hupper : t0 + (d.myPosition - oldPos) / v ≤ t1 ↔ d.myPosition ≤ newPos := by
    rw [hnew, ← le_sub_iff_add_le', div_le_iff₀ hv]
    constructor <;> intro h <;> linarith
  have hstrict : t0 + (d.myPosition - oldPos) / v < t1 ↔ d.myPosition < newPos := by
    rw [hnew, ← lt_sub_iff_add_lt', div_lt_iff₀ hv]
    constructor <;> intro h <;> linarith
  refine ⟨hfind, ?_, ?_, ?_, hupper.mpr hhi, hstrict⟩
  · intro hback
    rw [notifyMove_of_straddling d veh t0 t1 oldPos newPos v hacc hback]
    exact hfind
  · intro hback
    rw [notifyMove_of_cleared d veh t0 t1 oldPos newPos v _ hacc hfind hback]
    exact ⟨_, rfl, rfl, rfl, rfl⟩
  · have : 0 < (d.myPosition - oldPos) / v := div_pos (sub_pos.mpr hlo) hv
    linarith

/-- C1 (witness): the detector at 100 m and the car moving from 98 m to 103 m at 5 m/s in
the step from 10 s to 11 s: the stored entry time is 10.4 s. -/
theorem notifyMove_entry_time_witness :
    mapFind (detectorAt100.notifyMove car7 10 11 98 103 5).det.myEntryTimes car7.numericalID
        = some (10 + (100 - 98) / 5)
      ∧ (10 : ℚ) + (100 - 98) / 5 = 52 / 5 :=
  ⟨(notifyMove_entry_time detectorAt100 car7 10 11 98 103 5 (by decide) (by decide)
      (by norm_num) (by norm_num) (by norm_num) (by norm_num [detectorAt100])
      (by norm_num [detectorAt100])).2.1 (by norm_num [detectorAt100, car7]),
    by norm_num⟩

/-- C1 (counterexample): the detector at 103 m and the car moving from 98 m to 103 m at
5 m/s in the step from 10 s to 11 s meet every premise of the claim (`oldPos < p` and
`p ≤ newPos` with `p = newPos`), and the stored entry time is 11 s, the end of the step,
which is not in the half-open interval from 10 s to 11 s. -/
theorem notifyMove_entry_time_at_step_end :
    vehicleApplies detectorAt103 car7 = true
      ∧ mapFind detectorAt103.myEntryTimes car7.numericalID = none
      ∧ (10 : ℚ) < 11 ∧ (0 : ℚ) < 5 ∧ (103 : ℚ) = 98 + 5 * (11 - 10)
      ∧ 98 < detectorAt103.myPosition ∧ detectorAt103.myPosition ≤ 103
      ∧ mapFind (detectorAt103.notifyMove car7 10 11 98 103 5).det.myEntryTimes
          car7.numericalID = some 11
      ∧ ¬ ((10 : ℚ) ≤ 11 ∧ (11 : ℚ) < 11) := by
  refine ⟨by decide, by decide, by norm_num, by norm_num, by norm_num,
    by norm_num [detectorAt103], by norm_num [detectorAt103], by decide!, by norm_num⟩

/-! ### Frame of `notifyMove` -/

theorem notifyMove_cases (d : MSInstantInductLoop) (veh : SUMOVehicle)
    (t0 t1 oldPos newPos newSpeed : ℚ) :
    d.notifyMove veh t0 t1 oldPos newPos newSpeed = { det := d, records := [], keep := false }
      ∨ (∃ flag, d.notifyMove veh t0 t1 oldPos newPos newSpeed
          = { det := { d with
                myEntryTimes := entryTimesAfterFront d veh t0 t1 oldPos newPos newSpeed }
              records := [], keep := flag })
      ∨ ∃ e, mapFind (entryTimesAfterFront d veh t0 t1 oldPos newPos newSpeed)
            veh.numericalID = some e
          ∧ d.myPosition < newPos - veh.length
          ∧ d.notifyMove veh t0 t1 oldPos newPos newSpeed
            = { det := { d with
                  myLastExitTime := passingTime t0 t1 (oldPos - veh.length) d.myPosition
                    (newPos - veh.length) newSpeed
                  myEntryTimes := mapErase
                    (entryTimesAfterFront d veh t0 t1 oldPos newPos newSpeed)
                    veh.numericalID }
                records := [{ vehicle := veh.numericalID, entryTime := e,
                              exitTime := passingTime t0 t1 (oldPos - veh.length)
                                d.myPosition (newPos - veh.length) newSpeed
                              exitSpeed := newSpeed, kind := .pass }]
                keep := false } := by
  cases hacc : vehicleApplies d veh with
  | false => exact Or.inl (notifyMove_of_excluded d veh t0 t1 oldPos newPos newSpeed hacc)
  | true =>
    by_cases hback : d.myPosition < newPos - veh.length
    · cases h : mapFind (entryTimesAfterFront d veh t0 t1 oldPos newPos newSpeed)
        veh.numericalID with
      | none =>
        exact Or.inr (Or.inl ⟨false,
          notifyMove_of_beyond_untracked d veh t0 t1 oldPos newPos newSpeed hacc h hback⟩)
      | some e =>
        exact Or.inr (Or.inr ⟨e, rfl, hback,
          notifyMove_of_cleared d veh t0 t1 oldPos newPos newSpeed e hacc h hback⟩)
    · exact Or.inr (Or.inl ⟨true,
        notifyMove_of_straddling d veh t0 t1 oldPos newPos newSpeed hacc hback⟩)

theorem notifyMove_frame (d : MSInstantInductLoop) (veh : SUMOVehicle)
    (t0 t1 oldPos newPos newSpeed : ℚ) :
    (d.notifyMove veh t0 t1 oldPos newPos newSpeed).det.myPosition = d.myPosition
      ∧ (d.notifyMove veh t0 t1 oldPos newPos newSpeed).det.myVehicleTypes
          = d.myVehicleTypes := by
  rcases notifyMove_cases d veh t0 t1 oldPos newPos newSpeed with h | ⟨_, h⟩ | ⟨e, _, _, h⟩ <;>
    rw [h] <;> exact ⟨rfl, rfl⟩

theorem find_notifyMove_of_ne (d : MSInstantInductLoop) (veh : SUMOVehicle)
    (t0 t1 oldPos newPos newSpeed : ℚ) (k : Int) (hk : k ≠ veh.numericalID) :
    mapFind (d.notifyMove veh t0 t1 oldPos newPos newSpeed).det.myEntryTimes k
      = mapFind d.myEntryTimes k := by
  rcases notifyMove_cases d veh t0 t1 oldPos newPos newSpeed with h | ⟨_, h⟩ | ⟨e, _, _, h⟩
  · rw [h]
  · rw [h]
    exact find_entryTimesAfterFront_of_ne d veh t0 t1 oldPos newPos newSpeed k hk
  · rw [h]
    show mapFind (mapErase _ _) k = _
    rw [mapFind_mapErase_of_ne _ _ _ hk]
    exact find_entryTimesAfterFront_of_ne d veh t0 t1 oldPos newPos newSpeed k hk

theorem notifyMove_records_vehicle (d : MSInstantInductLoop) (veh : SUMOVehicle)
    (t0 t1 oldPos newPos newSpeed : ℚ) :
    ∀ r ∈ (d.notifyMove veh t0 t1 oldPos newPos newSpeed).records,
      r.vehicle = veh.numericalID := by
  intro r hr
  rcases notifyMove_cases d veh t0 t1 oldPos newPos newSpeed with h | ⟨_, h⟩ | ⟨e, _, _, h⟩
  · rw [h] at hr; exact absurd hr (List.not_mem_nil r)
  · rw [h] at hr; exact absurd hr (List.not_mem_nil r)
  · rw [h] at hr
    rw [List.mem_singleton.mp hr]

theorem notifyLeave_frame (d : MSInstantInductLoop) (veh : SUMOVehicle) (t lastPos : ℚ)
    (reason : Notification) :
    (d.notifyLeave veh t lastPos reason).det.myPosition = d.myPosition
      ∧ (d.notifyLeave veh t lastPos reason).det.myVehicleTypes = d.myVehicleTypes := by
  cases h : mapFind d.myEntryTimes veh.numericalID with
  | none => rw [notifyLeave_of_not_found d veh t lastPos reason h]; exact ⟨rfl, rfl⟩
  | some e => rw [notifyLeave_of_found d veh t lastPos reason e h]; exact ⟨rfl, rfl⟩

theorem notifyLeave_records_vehicle (d : MSInstantInductLoop) (veh : SUMOVehicle)
    (t lastPos : ℚ) (reason : Notification) :
    ∀ r ∈ (d.notifyLeave veh t lastPos reason).records,
      r.vehicle = veh.numericalID ∧ r.entryTime = r.exitTime := by
  intro r hr
  cases h : mapFind d.myEntryTimes veh.numericalID with
  | none =>
    rw [notifyLeave_of_not_found d veh t lastPos reason h] at hr
    exact absurd hr (List.not_mem_nil r)
  | some e =>
    rw [notifyLeave_of_found d veh t lastPos reason e h] at hr
    rw [List.mem_singleton.mp hr]
    exact ⟨rfl, rfl⟩

/-! ### Type filtering -/

theorem vehicleApplies_of_excluded (d : MSInstantInductLoop) (veh : SUMOVehicle)
    (hne : d.myVehicleTypes ≠ []) (hex : veh.vtype ∉ d.myVehicleTypes) :
    vehicleApplies d veh = false := by
  unfold vehicleApplies
  have h1 : d.myVehicleTypes.isEmpty = false := by
    cases hty : d.myVehicleTypes with
    | nil => exact absurd hty hne
    | cons a l => rfl
  have h2 : d.myVehicleTypes.contains veh.vtype = false := by
    cases hc : d.myVehicleTypes.contains veh.vtype with
    | false => rfl
    | true => exact absurd (List.mem_of_elem_eq_true hc) hex
  rw [h1, h2]
  rfl

/-- C10: on a detector with a non-empty set of accepted types that does not track the
vehicle with numerical id `veh.numericalID`, any sequence of `notifyMove` and
`notifyLeave` calls in which the calls for this vehicle carry its excluded type (calls
for other vehicles may be interleaved) leaves the table of entry times without an entry
for the vehicle, hands no record of the vehicle to the sink, and every `notifyMove` call
for the vehicle returns false. -/
theorem run_excluded_type (d : MSInstantInductLoop) (veh : SUMOVehicle) (evs : List Event)
    (hne : d.myVehicleTypes ≠ []) (hex : veh.vtype ∉ d.myVehicleTypes)
    (hev : ∀ ev ∈ evs, ev.vehicle.numericalID = veh.numericalID →
      ev.vehicle.vtype = veh.vtype)
    (hun : mapFind d.myEntryTimes veh.numericalID = none) :
    mapFind (d.run evs).det.myEntryTimes veh.numericalID = none
      ∧ (∀ r ∈ (d.run evs).records, r.vehicle ≠ veh.numericalID)
      ∧ (∀ f ∈ (d.run evs).flags, f.1 = veh.numericalID → f.2 = false) := by
  induction evs generalizing d with
  | nil =>
    refine ⟨hun, ?_, ?_⟩
    · intro r hr; exact absurd hr (List.not_mem_nil r)
    · intro f hf; exact absurd hf (List.not_mem_nil f)
  | cons ev rest ih =>
    have hrest : ∀ ev' ∈ rest, ev'.vehicle.numericalID = veh.numericalID →
        ev'.vehicle.vtype = veh.vtype :=
      fun ev' h => hev ev' (List.mem_cons_of_mem ev h)
    have hhead := hev ev (List.mem_cons_self ev rest)
    cases ev with
    | move v t0 t1 oldPos newPos newSpeed =>
      have hframe := notifyMove_frame d v t0 t1 oldPos newPos newSpeed
      have hun' : mapFind (d.notifyMove v t0 t1 oldPos newPos newSpeed).det.myEntryTimes
          veh.numericalID = none := by
        by_cases hid : v.numericalID = veh.numericalID
        · have hexv : v.vtype ∉ d.myVehicleTypes := by
            rw [show v.vtype = veh.vtype from hhead hid]; exact hex
          rw [notifyMove_of_excluded d v t0 t1 oldPos newPos newSpeed
            (vehicleApplies_of_excluded d v hne hexv)]
          exact hun
        · rw [find_notifyMove_of_ne d v t0 t1 oldPos newPos newSpeed veh.numericalID
            (fun h => hid h.symm)]
          exact hun
      obtain ⟨ih1, ih2, ih3⟩ := ih (d.notifyMove v t0 t1 oldPos newPos newSpeed).det
        (by rw [hframe.2]; exact hne) (by rw [hframe.2]; exact hex) hrest hun'
      refine ⟨ih1, ?_, ?_⟩
      · intro r hr
        rcases List.mem_append.mp hr with h | h
        · intro hrv
          have hid : v.numericalID = veh.numericalID := by
            rw [← notifyMove_records_vehicle d v t0 t1 oldPos newPos newSpeed r h]
            exact hrv
          have hexv : v.vtype ∉ d.myVehicleTypes := by
            rw [show v.vtype = veh.vtype from hhead hid]; exact hex
          rw [notifyMove_of_excluded d v t0 t1 oldPos newPos newSpeed
            (vehicleApplies_of_excluded d v hne hexv)] at h
          exact absurd h (List.not_mem_nil r)
        · exact ih2 r h
      · intro f hf hfid
        rcases List.mem_cons.mp hf with h | h
        · subst h
          have hexv : v.vtype ∉ d.myVehicleTypes := by
            rw [show v.vtype = veh.vtype from hhead hfid]; exact hex
          show (d.notifyMove v t0 t1 oldPos newPos newSpeed).keep = false
          rw [notifyMove_of_excluded d v t0 t1 oldPos newPos newSpeed
            (vehicleApplies_of_excluded d v hne hexv)]
        · exact ih3 f h hfid
    | leave v t lastPos reason =>
      have hframe := notifyLeave_frame d v t lastPos reason
      have hun' : mapFind (d.notifyLeave v t lastPos reason).det.myEntryTimes
          veh.numericalID = none := by
        by_cases hid : v.numericalID = veh.numericalID
        · rw [← hid]; exact find_notifyLeave_self d v t lastPos reason
        · rw [find_notifyLeave_of_ne d v t lastPos reason veh.numericalID
            (fun h => hid h.symm)]
          exact hun
      obtain ⟨ih1, ih2, ih3⟩ := ih (d.notifyLeave v t lastPos reason).det
        (by rw [hframe.2]; exact hne) (by rw [hframe.2]; exact hex) hrest hun'
      refine ⟨ih1, ?_, ih3⟩
      intro r hr
      rcases List.mem_append.mp hr with h | h
      · intro hrv
        have hid : v.numericalID = veh.numericalID := by
          rw [← (notifyLeave_records_vehicle d v t lastPos reason r h).1]
          exact hrv
        rw [notifyLeave_of_not_found d v t lastPos reason (by rw [hid]; exact hun)] at h
        exact absurd h (List.not_mem_nil r)
      · exact ih2 r h

/-- C10 (witness): the truck, whose type the detector at 100 m does not accept, drives
over the detector and changes lane while the accepted car crosses it. -/
theorem run_excluded_type_witness :
    mapFind (detectorAt100.run truckAndCarEvents).det.myEntryTimes truck8.numericalID = none
      ∧ (∀ r ∈ (detectorAt100.run truckAndCarEvents).records,
          r.vehicle ≠ truck8.numericalID)
      ∧ (∀ f ∈ (detectorAt100.run truckAndCarEvents).flags,
          f.1 = truck8.numericalID → f.2 = false) :=
  run_excluded_type detectorAt100 truck8 truckAndCarEvents (by decide) (by decide)
    (by
      intro ev hev hid
      simp only [truckAndCarEvents, List.mem_cons, List.mem_singleton, List.mem_nil_iff,
        or_false] at hev
      rcases hev with h | h | h | h | h <;> subst h
      · rfl
      · rfl
      · exact absurd hid (by decide)
      · rfl
      · rfl)
    (by decide)

/-! ### Exit time against entry time -/

theorem passingTime_mem (t0 t1 a p b v : ℚ) (ht : t0 ≤ t1) (ha : a ≤ p) (hb : p ≤ b) :
    t0 ≤ passingTime t0 t1 a p b v ∧ passingTime t0 t1 a p b v ≤ t1 := by
  unfold passingTime
  by_cases hv : v = 0
  · rw [if_pos hv]; exact ⟨ht, le_refl t1⟩
  · rw [if_neg hv]
    have hd : 0 ≤ t1 - t0 := sub_nonneg.mpr ht
    have hab : 0 ≤ b - a := sub_nonneg.mpr (le_trans ha hb)
    have hf0 : 0 ≤ (p - a) / (b - a) := div_nonneg (sub_nonneg.mpr ha) hab
    have hf1 : (p - a) / (b - a) ≤ 1 := by
      apply div_le_one_of_le₀ _ hab
      linarith
    constructor
    · have := mul_nonneg hf0 hd
      linarith
    · have := mul_le_mul_of_nonneg_right hf1 hd
      linarith

theorem passingTime_front_le_back (t0 t1 a p b v len : ℚ) (ht : t0 ≤ t1) (hlen : 0 ≤ len)
    (hab : a ≤ b) :
    passingTime t0 t1 a p b v ≤ passingTime t0 t1 (a - len) p (b - len) v := by
  unfold passingTime
  by_cases hv : v = 0
  · rw [if_pos hv, if_pos hv]
  · rw [if_neg hv, if_neg hv]
    have hd : 0 ≤ t1 - t0 := sub_nonneg.mpr ht
    have hden : b - len - (a - len) = b - a := by ring
    rw [hden]
    have hfrac : (p - a) / (b - a) ≤ (p - (a - len)) / (b - a) := by
      apply div_le_div_of_nonneg_right _ (sub_nonneg.mpr hab)
      linarith
    have := mul_le_mul_of_nonneg_right hfrac hd
    linarith

theorem entry_after_front_bounded (d : MSInstantInductLoop) (clock : Int → ℚ)
    (veh : SUMOVehicle) (t0 t1 oldPos newPos newSpeed e : ℚ)
    (hinv : ∀ k x, mapFind d.myEntryTimes k = some x → x ≤ clock k)
    (hadm : admissible d clock (.move veh t0 t1 oldPos newPos newSpeed))
    (he : mapFind (entryTimesAfterFront d veh t0 t1 oldPos newPos newSpeed) veh.numericalID
      = some e) :
    (mapFind d.myEntryTimes veh.numericalID = some e ∧ e ≤ t0)
      ∨ (mapFind d.myEntryTimes veh.numericalID = none
          ∧ e = passingTime t0 t1 oldPos d.myPosition newPos newSpeed ∧ e ≤ t1) := by
  obtain ⟨hclk, ht, _, _, _⟩ := hadm
  rw [find_entryTimesAfterFront_self] at he
  split at he
  · rename_i hc
    obtain ⟨hnone, hlo, hhi⟩ := hc
    have heq : e = passingTime t0 t1 oldPos d.myPosition newPos newSpeed :=
      (Option.some.inj he).symm
    refine Or.inr ⟨Option.isNone_iff_eq_none.mp hnone, heq, ?_⟩
    rw [heq]
    exact (passingTime_mem t0 t1 oldPos d.myPosition newPos newSpeed ht hlo hhi).2
  · exact Or.inl ⟨he, le_trans (hinv _ _ he) hclk⟩

theorem notifyMove_records_ordered (d : MSInstantInductLoop) (clock : Int → ℚ)
    (veh : SUMOVehicle) (t0 t1 oldPos newPos newSpeed : ℚ)
    (hinv : ∀ k x, mapFind d.myEntryTimes k = some x → x ≤ clock k)
    (hadm : admissible d clock (.move veh t0 t1 oldPos newPos newSpeed)) :
    ∀ r ∈ (d.notifyMove veh t0 t1 oldPos newPos newSpeed).records,
      r.entryTime ≤ r.exitTime := by
  intro r hr
  rcases notifyMove_cases d veh t0 t1 oldPos newPos newSpeed with h | ⟨_, h⟩ | ⟨e, he, hback, h⟩
  · rw [h] at hr; exact absurd hr (List.not_mem_nil r)
  · rw [h] at hr; exact absurd hr (List.not_mem_nil r)
  · rw [h] at hr
    rw [List.mem_singleton.mp hr]
    show e ≤ passingTime t0 t1 (oldPos - veh.length) d.myPosition (newPos - veh.length)
      newSpeed
    have hadm' := hadm
    obtain ⟨_, ht, hpos, hlen, htail⟩ := hadm'
    rcases entry_after_front_bounded d clock veh t0 t1 oldPos newPos newSpeed e hinv hadm he
      with ⟨htracked, hle⟩ | ⟨_, heq, _⟩
    · have hold : oldPos - veh.length ≤ d.myPosition := htail (by rw [htracked]; rfl)
      exact le_trans hle (passingTime_mem t0 t1 (oldPos - veh.length) d.myPosition
        (newPos - veh.length) newSpeed ht hold (le_of_lt hback)).1
    · rw [heq]
      exact passingTime_front_le_back t0 t1 oldPos d.myPosition newPos newSpeed veh.length
        ht hlen hpos

theorem notifyMove_entries_bounded (d : MSInstantInductLoop) (clock : Int → ℚ)
    (veh : SUMOVehicle) (t0 t1 oldPos newPos newSpeed : ℚ)
    (hinv : ∀ k x, mapFind d.myEntryTimes k = some x → x ≤ clock k)
    (hadm : admissible d clock (.move veh t0 t1 oldPos newPos newSpeed)) :
    ∀ k x, mapFind (d.notifyMove veh t0 t1 oldPos newPos newSpeed).det.myEntryTimes k = some x →
      x ≤ tick clock (.move veh t0 t1 oldPos newPos newSpeed) k := by
  intro k x hx
  by_cases hk : k = veh.numericalID
  · subst hk
    show x ≤ if veh.numericalID = veh.numericalID then t1 else clock veh.numericalID
    rw [if_pos rfl]
    have hadm' := hadm
    obtain ⟨hclk, ht, _, _, _⟩ := hadm'
    rcases notifyMove_cases d veh t0 t1 oldPos newPos newSpeed with h | ⟨_, h⟩ | ⟨e, _, _, h⟩
    · rw [h] at hx
      exact le_trans (le_trans (hinv _ _ hx) hclk) ht
    · rw [h] at hx
      rcases entry_after_front_bounded d clock veh t0 t1 oldPos newPos newSpeed x hinv hadm hx
        with ⟨_, hle⟩ | ⟨_, _, hle⟩
      · exact le_trans hle ht
      · exact hle
    · rw [h] at hx
      have hnone : mapFind (mapErase (entryTimesAfterFront d veh t0 t1 oldPos newPos newSpeed)
          veh.numericalID) veh.numericalID = none := mapFind_mapErase_self _ _
      rw [hnone] at hx
      exact absurd hx (by simp)
  · rw [find_notifyMove_of_ne d veh t0 t1 oldPos newPos newSpeed k hk] at hx
    show x ≤ if k = veh.numericalID then t1 else clock k
    rw [if_neg hk]
    exact hinv k x hx

/-- C9: in every sequence of notifications that meets the precondition of the motion
source (`admissibleRun`: per vehicle the steps follow one another in time, no vehicle
moves backwards, lengths are not negative, and the trailing edge of a tracked vehicle
passes the monitored position within a step), started on a detector whose stored entry
times are not later than the clocks of their vehicles, every record handed to the sink,
pass or dismiss, has an exit time greater than or equal to its entry time; the entry
time of a pass record is the one stored at the front crossing. -/
theorem run_exit_ge_entry (d : MSInstantInductLoop) (clock : Int → ℚ) (evs : List Event)
    (hinv : ∀ k x, mapFind d.myEntryTimes k = some x → x ≤ clock k)
    (hadm : admissibleRun d clock evs) :
    ∀ r ∈ (d.run evs).records, r.entryTime ≤ r.exitTime := by
  induction evs generalizing d clock with
  | nil => intro r hr; exact absurd hr (List.not_mem_nil r)
  | cons ev rest ih =>
    obtain ⟨hhead, htail⟩ := hadm
    cases ev with
    | move veh t0 t1 oldPos newPos newSpeed =>
      intro r hr
      rcases List.mem_append.mp hr with h | h
      · exact notifyMove_records_ordered d clock veh t0 t1 oldPos newPos newSpeed hinv hhead
          r h
      · exact ih (d.notifyMove veh t0 t1 oldPos newPos newSpeed).det
          (tick clock (.move veh t0 t1 oldPos newPos newSpeed))
          (notifyMove_entries_bounded d clock veh t0 t1 oldPos newPos newSpeed hinv hhead)
          htail r h
    | leave veh t lastPos reason =>
      intro r hr
      rcases List.mem_append.mp hr with h | h
      · exact le_of_eq (notifyLeave_records_vehicle d veh t lastPos reason r h).2
      · refine ih (d.notifyLeave veh t lastPos reason).det clock ?_ htail r h
        intro k x hx
        by_cases hk : k = veh.numericalID
        · subst hk
          rw [find_notifyLeave_self d veh t lastPos reason] at hx
          exact absurd hx (by simp)
        · rw [find_notifyLeave_of_ne d veh t lastPos reason k hk] at hx
          exact hinv k x hx

/-- C9 (witness): the car crosses the detector at 100 m with its front at 10.4 s and with
its trailing edge at 11.4 s, and a second car is dismissed at 12 s by a lane change. -/
theorem run_exit_ge_entry_witness :
    (detectorAt100.run carPassEvents).records
        = [{ vehicle := 7, entryTime := 52 / 5, exitTime := 57 / 5, exitSpeed := 5,
             kind := EventKind.pass },
           { vehicle := 9, entryTime := 12, exitTime := 12, exitSpeed := 5,
             kind := EventKind.dismissByLaneChange }]
      ∧ ∀ r ∈ (detectorAt100.run carPassEvents).records, r.entryTime ≤ r.exitTime :=
  ⟨by decide!,
    run_exit_ge_entry detectorAt100 (fun _ => 0) carPassEvents
      (by intro k x hx; exact absurd hx (by simp [detectorAt100, mapFind]))
      (by
        norm_num [carPassEvents, admissibleRun, admissible, after, tick, notifyMove,
          notifyLeave, vehicleApplies, entryTimesAfterFront, passingTime, mapFind,
          mapInsert, mapErase, detectorAt100, car7])⟩

/-! ### The table of entry times holds one entry per vehicle -/

theorem mapErase_keys_nodup {κ ν : Type} [DecidableEq κ] (m : List (κ × ν)) (k : κ)
    (h : (m.map Prod.fst).Nodup) : ((mapErase m k).map Prod.fst).Nodup :=
  List.Nodup.sublist (List.Sublist.map Prod.fst (List.filter_sublist m)) h

theorem key_not_mem_mapErase {κ ν : Type} [DecidableEq κ] (m : List (κ × ν)) (k : κ) :
    ∀ e ∈ mapErase m k, e.1 ≠ k := by
  intro e he
  have := (List.mem_filter.mp he).2
  exact of_decide_eq_true this

theorem mapInsert_keys_nodup {κ ν : Type} [DecidableEq κ] (m : List (κ × ν)) (k : κ) (v : ν)
    (h : (m.map Prod.fst).Nodup) : ((mapInsert m k v).map Prod.fst).Nodup := by
  unfold mapInsert
  rw [List.map_cons, List.nodup_cons]
  refine ⟨?_, mapErase_keys_nodup m k h⟩
  intro hmem
  obtain ⟨e, he, hk⟩ := List.mem_map.mp hmem
  exact key_not_mem_mapErase m k e he hk

theorem mapInsert_bindings {κ ν : Type} [DecidableEq κ] (m : List (κ × ν)) (k : κ) (v : ν) :
    (mapInsert m k v).filter (fun e => decide (e.1 = k)) = [(k, v)] := by
  unfold mapInsert
  rw [List.filter_cons_of_pos (by simp)]
  congr 1
  rw [List.filter_eq_nil_iff]
  intro e he
  simpa using key_not_mem_mapErase m k e he

theorem entryTimesAfterFront_keys_nodup (d : MSInstantInductLoop) (veh : SUMOVehicle)
    (t0 t1 oldPos newPos newSpeed : ℚ) (h : (d.myEntryTimes.map Prod.fst).Nodup) :
    ((entryTimesAfterFront d veh t0 t1 oldPos newPos newSpeed).map Prod.fst).Nodup := by
  unfold entryTimesAfterFront
  split
  · exact mapInsert_keys_nodup _ _ _ h
  · exact h

theorem after_keys_nodup (d : MSInstantInductLoop) (ev : Event)
    (h : (d.myEntryTimes.map Prod.fst).Nodup) :
    ((after d ev).myEntryTimes.map Prod.fst).Nodup := by
  cases ev with
  | move veh t0 t1 oldPos newPos newSpeed =>
    show ((d.notifyMove veh t0 t1 oldPos newPos newSpeed).det.myEntryTimes.map Prod.fst).Nodup
    have hfront := entryTimesAfterFront_keys_nodup d veh t0 t1 oldPos newPos newSpeed h
    rcases notifyMove_cases d veh t0 t1 oldPos newPos newSpeed with hc | ⟨_, hc⟩ | ⟨e, _, _, hc⟩
    · rw [hc]; exact h
    · rw [hc]; exact hfront
    · rw [hc]; exact mapErase_keys_nodup _ _ hfront
  | leave veh t lastPos reason =>
    show ((d.notifyLeave veh t lastPos reason).det.myEntryTimes.map Prod.fst).Nodup
    cases hf : mapFind d.myEntryTimes veh.numericalID with
    | none => rw [notifyLeave_of_not_found d veh t lastPos reason hf]; exact h
    | some e =>
      rw [notifyLeave_of_found d veh t lastPos reason e hf]
      exact mapErase_keys_nodup _ _ h

theorem run_det_cons (d : MSInstantInductLoop) (ev : Event) (rest : List Event) :
    (d.run (ev :: rest)).det = ((after d ev).run rest).det := by
  cases ev <;> rfl

theorem run_keys_nodup (d : MSInstantInductLoop) (evs : List Event)
    (h : (d.myEntryTimes.map Prod.fst).Nodup) :
    ((d.run evs).det.myEntryTimes.map Prod.fst).Nodup := by
  induction evs generalizing d with
  | nil => exact h
  | cons ev rest ih =>
    rw [run_det_cons]
    exact ih (after d ev) (after_keys_nodup d ev h)

theorem entry_removed_iff (d : MSInstantInductLoop) (ev : Event) (k : Int) :
    ((mapFind d.myEntryTimes k).isSome = true ∧ mapFind (after d ev).myEntryTimes k = none)
      ↔ ((mapFind d.myEntryTimes k).isSome = true ∧ ∃ r ∈ emitted d ev, r.vehicle = k) := by
  refine and_congr_right ?_
  intro htracked
  obtain ⟨x, hx⟩ := Option.isSome_iff_exists.mp htracked
  cases ev with
  | move veh t0 t1 oldPos newPos newSpeed =>
    show mapFind (d.notifyMove veh t0 t1 oldPos newPos newSpeed).det.myEntryTimes k = none
      ↔ ∃ r ∈ (d.notifyMove veh t0 t1 oldPos newPos newSpeed).records, r.vehicle = k
    by_cases hk : k = veh.numericalID
    · subst hk
      have hfront : mapFind (entryTimesAfterFront d veh t0 t1 oldPos newPos newSpeed)
          veh.numericalID = some x := by
        rw [find_entryTimesAfterFront_self, hx]
        simp
      rcases notifyMove_cases d veh t0 t1 oldPos newPos newSpeed with hc | ⟨_, hc⟩ | ⟨e, _, _, hc⟩
      · rw [hc]; simp [hx]
      · rw [hc]; simp [hfront]
      · rw [hc]
        constructor
        · intro _
          exact ⟨_, List.mem_singleton.mpr rfl, rfl⟩
        · intro _
          exact mapFind_mapErase_self _ _
    · rw [find_notifyMove_of_ne d veh t0 t1 oldPos newPos newSpeed k hk, hx]
      constructor
      · intro h; exact absurd h (by simp)
      · rintro ⟨r, hr, hrk⟩
        exact absurd
          ((notifyMove_records_vehicle d veh t0 t1 oldPos newPos newSpeed r hr).symm.trans hrk).symm
          hk
  | leave veh t lastPos reason =>
    show mapFind (d.notifyLeave veh t lastPos reason).det.myEntryTimes k = none
      ↔ ∃ r ∈ (d.notifyLeave veh t lastPos reason).records, r.vehicle = k
    by_cases hk : k = veh.numericalID
    · subst hk
      rw [notifyLeave_of_found d veh t lastPos reason x hx]
      constructor
      · intro _
        exact ⟨_, List.mem_singleton.mpr rfl, rfl⟩
      · intro _
        exact mapFind_mapErase_self _ _
    · rw [find_notifyLeave_of_ne d veh t lastPos reason k hk, hx]
      constructor
      · intro h; exact absurd h (by simp)
      · rintro ⟨r, hr, hrk⟩
        exact absurd
          ((notifyLeave_records_vehicle d veh t lastPos reason r hr).1.symm.trans hrk).symm hk

theorem bindings_length_le_one {κ ν : Type} [DecidableEq κ] (m : List (κ × ν)) (k : κ)
    (h : (m.map Prod.fst).Nodup) : (m.filter (fun e => decide (e.1 = k))).length ≤ 1 := by
  induction m with
  | nil => simp
  | cons e rest ih =>
    rw [List.map_cons, List.nodup_cons] at h
    by_cases hk : e.1 = k
    · rw [List.filter_cons_of_pos (by simpa using hk)]
      have hnil : rest.filter (fun e => decide (e.1 = k)) = [] := by
        rw [List.filter_eq_nil_iff]
        intro e' he' hk'
        exact h.1 (List.mem_map.mpr ⟨e', he', (of_decide_eq_true hk').trans hk.symm⟩)
      rw [hnil]
      simp
    · rw [List.filter_cons_of_neg (by simpa using hk)]
      exact ih h.2

/-- C11: in every detector state reached from a state whose table of entry times holds at
most one entry per vehicle (the empty table of a new detector is one) by any sequence of
`notifyMove` and `notifyLeave` calls, the table holds at most one entry time per vehicle;
in such a state the front check of `notifyMove` leaves the table as it is for a vehicle
that already has an entry, and the map assignment that records an entry leaves exactly
one binding for the vehicle, the new one, and keeps the entries of the other vehicles;
and a notification removes the entry of a tracked vehicle exactly when it hands a record
of that vehicle (pass or dismiss) to the sink. -/
theorem run_entry_table_invariant (d : MSInstantInductLoop) (evs : List Event)
    (hnd : (d.myEntryTimes.map Prod.fst).Nodup) :
    ((d.run evs).det.myEntryTimes.map Prod.fst).Nodup
      ∧ (∀ k : Int,
          ((d.run evs).det.myEntryTimes.filter (fun e => decide (e.1 = k))).length ≤ 1)
      ∧ (∀ (veh : SUMOVehicle) (t0 t1 oldPos newPos newSpeed : ℚ),
          (mapFind (d.run evs).det.myEntryTimes veh.numericalID).isSome = true →
            entryTimesAfterFront (d.run evs).det veh t0 t1 oldPos newPos newSpeed
              = (d.run evs).det.myEntryTimes)
      ∧ (∀ (k : Int) (v : ℚ),
          (mapInsert (d.run evs).det.myEntryTimes k v).filter (fun e => decide (e.1 = k))
              = [(k, v)]
            ∧ ((mapInsert (d.run evs).det.myEntryTimes k v).map Prod.fst).Nodup
            ∧ ∀ j, j ≠ k → mapFind (mapInsert (d.run evs).det.myEntryTimes k v) j
                = mapFind (d.run evs).det.myEntryTimes j)
      ∧ (∀ (ev : Event) (k : Int),
          ((mapFind (d.run evs).det.myEntryTimes k).isSome = true
              ∧ mapFind (after (d.run evs).det ev).myEntryTimes k = none)
            ↔ ((mapFind (d.run evs).det.myEntryTimes k).isSome = true
              ∧ ∃ r ∈ emitted (d.run evs).det ev, r.vehicle = k)) := by
  have hrun := run_keys_nodup d evs hnd
  refine ⟨hrun, fun k => bindings_length_le_one _ k hrun, ?_, ?_, ?_⟩
  · intro veh t0 t1 oldPos newPos newSpeed htracked
    obtain ⟨x, hx⟩ := Option.isSome_iff_exists.mp htracked
    unfold entryTimesAfterFront
    rw [hx]
    simp
  · intro k v
    exact ⟨mapInsert_bindings _ k v, mapInsert_keys_nodup _ k v hrun,
      fun j hj => mapFind_mapInsert_of_ne _ k j v hj⟩
  · intro ev k
    exact entry_removed_iff _ ev k

/-- C11 (witness): the run of the two cars over the detector at 100 m, which starts with
an empty table. -/
theorem run_entry_table_invariant_witness :
    ((detectorAt100.run carPassEvents).det.myEntryTimes.map Prod.fst).Nodup
      ∧ (detectorAt100.run (carPassEvents.take 2)).det.myEntryTimes
          = [(9, 59 / 5), (7, 52 / 5)]
      ∧ (detectorAt100.run carPassEvents).det.myEntryTimes = [] :=
  ⟨(run_entry_table_invariant detectorAt100 carPassEvents
      (by simp [detectorAt100])).1, by decide!, by decide!⟩

/-! ### The last exit time -/

end MSInstantInductLoop

end Sumo
